import Mathlib

/-!
Verification of the relay-git-sync core against its specification.

The Python source is shallowly embedded: dictionaries become association
lists over `String` keys (preserving insertion order, as Python dicts do),
the filesystem becomes an explicit `FolderState`, fallible code returns
`Except String`, and the SHA-256 function from `hashlib` is kept abstract
as a parameter `f : String → String` (file bytes are modelled as strings
over an opaque alphabet).
-/

namespace RelayGitSync

deriving instance DecidableEq for Except

/-- Python truthiness for an optional string: `None` and `""` are falsy
(`if not x` in the source). -/
def truthy : Option String → Option String
  | none => none
  | some s => if s = "" then none else some s

/-- Association list with string keys, modelling a Python dict.
Iteration order is insertion order, as in CPython. -/
abbrev AList (α : Type) := List (String × α)

/-- `d.get(k)` / `d[k]`: first binding for `k`. -/
def alookup (l : AList α) (k : String) : Option α :=
  match l with
  | [] => none
  | (k', v) :: rest => if k' = k then some v else alookup rest k

/-- `k in d`. -/
def hasKey (l : AList α) (k : String) : Bool :=
  (alookup l k).isSome

/-- `d[k] = v`: replace in place if the key exists, else append
(CPython dict update keeps the key's original position). -/
def ainsert (l : AList α) (k : String) (v : α) : AList α :=
  if hasKey l k then
    l.map (fun kv => if kv.1 = k then (k, v) else kv)
  else
    l ++ [(k, v)]

/-- `d.pop(k, default)` discarding the value: remove the binding for `k`. -/
def aerase (l : AList α) (k : String) : AList α :=
  l.filter (fun kv => kv.1 ≠ k)

@[simp] theorem alookup_nil (k : String) : alookup ([] : AList α) k = none := rfl

theorem alookup_cons (k' : String) (v : α) (l : AList α) (k : String) :
    alookup ((k', v) :: l) k = if k' = k then some v else alookup l k := rfl

theorem alookup_append (l₁ l₂ : AList α) (k : String) :
    alookup (l₁ ++ l₂) k =
      match alookup l₁ k with
      | some v => some v
      | none => alookup l₂ k := by
  induction l₁ with
  | nil => simp
  | cons kv rest ih =>
    cases kv with
    | mk k' v =>
      rw [List.cons_append, alookup_cons, alookup_cons]
      by_cases h : k' = k
      · simp [h]
      · simp only [if_neg h]
        exact ih

theorem alookup_mapReplace_self (l : AList α) (k : String) (v : α) :
    alookup (l.map (fun kv => if kv.1 = k then (k, v) else kv)) k =
      if hasKey l k then some v else none := by
  induction l with
  | nil => simp [hasKey]
  | cons kv rest ih =>
    by_cases h : kv.1 = k
    · simp [alookup_cons, h, hasKey]
      cases kv with
      | mk a b => simp at h; simp [alookup_cons, h]
    · simp only [List.map_cons, if_neg h]
      rw [alookup_cons, if_neg h, ih]
      have : hasKey (kv :: rest) k = hasKey rest k := by
        cases kv with
        | mk a b =>
          simp only [hasKey]
          rw [alookup_cons, if_neg h]
      rw [this]

theorem alookup_mapReplace_ne (l : AList α) (k : String) (v : α) (k' : String)
    (h : k' ≠ k) :
    alookup (l.map (fun kv => if kv.1 = k then (k, v) else kv)) k' = alookup l k' := by
  induction l with
  | nil => simp
  | cons kv rest ih =>
    by_cases hk : kv.1 = k
    · simp only [List.map_cons, if_pos hk]
      rw [alookup_cons, alookup_cons, if_neg (fun hkk => h hkk.symm), if_neg]
      · exact ih
      · rw [hk]; exact fun hkk => h hkk.symm
    · simp only [List.map_cons, if_neg hk]
      rw [alookup_cons, alookup_cons]
      by_cases hv : kv.1 = k'
      · simp [hv]
      · simp only [if_neg hv]
        exact ih

theorem alookup_ainsert_self (l : AList α) (k : String) (v : α) :
    alookup (ainsert l k v) k = some v := by
  unfold ainsert
  by_cases h : hasKey l k
  · rw [if_pos h, alookup_mapReplace_self, if_pos h]
  · rw [if_neg h, alookup_append]
    have hnone : alookup l k = none := by
      cases hf : alookup l k with
      | none => rfl
      | some v' => exfalso; apply h; simp [hasKey, hf]
    rw [hnone]
    simp [alookup_cons]

theorem alookup_ainsert_ne (l : AList α) (k : String) (v : α) (k' : String)
    (h : k' ≠ k) : alookup (ainsert l k v) k' = alookup l k' := by
  unfold ainsert
  by_cases hk : hasKey l k
  · rw [if_pos hk, alookup_mapReplace_ne _ _ _ _ h]
  · rw [if_neg hk, alookup_append]
    cases hf : alookup l k' with
    | some v' => rfl
    | none =>
      rw [alookup_cons, if_neg (fun hkk => h hkk.symm), alookup_nil]

theorem alookup_aerase_self (l : AList α) (k : String) :
    alookup (aerase l k) k = none := by
  induction l with
  | nil => simp [aerase]
  | cons kv rest ih =>
    unfold aerase at *
    rw [List.filter_cons]
    by_cases h : kv.1 = k
    · rw [if_neg (by simp [h])]
      exact ih
    · rw [if_pos (by simp [h]), alookup_cons, if_neg h]
      exact ih

theorem alookup_aerase_ne (l : AList α) (k k' : String) (h : k' ≠ k) :
    alookup (aerase l k) k' = alookup l k' := by
  induction l with
  | nil => simp [aerase]
  | cons kv rest ih =>
    unfold aerase at *
    rw [List.filter_cons]
    by_cases hk : kv.1 = k
    · rw [if_neg (by simp [hk]), ih, alookup_cons,
        if_neg (by rw [hk]; exact fun hkk => h hkk.symm)]
    · rw [if_pos (by simp [hk]), alookup_cons, alookup_cons, ih]

/-! ## Path sanitization (persistence.py `_sanitize_path`) -/

/-- Simple error test on `Except`. -/
def isErr : Except String String → Bool
  | .error _ => true
  | .ok _ => false

/-- Prefix test on character lists (`needle` first). -/
def hasPrefixC : List Char → List Char → Bool
  | [], _ => true
  | _ :: _, [] => false
  | a :: as, b :: bs => a = b && hasPrefixC as bs

/-- Literal substring test (`needle in hay`). -/
def containsSub (needle : List Char) : List Char → Bool
  | [] => hasPrefixC needle []
  | c :: cs => hasPrefixC needle (c :: cs) || containsSub needle cs

/-- `s.startswith(pre)`. -/
def startsWithC (s pre : String) : Bool := hasPrefixC pre.toList s.toList

/-- `p.split("/")` as character lists; `"".split("/") == [""]`,
`"/".split("/") == ["", ""]`, as in Python. -/
def splitSlash : List Char → List (List Char)
  | [] => [[]]
  | c :: cs =>
    if c = '/' then [] :: splitSlash cs
    else
      match splitSlash cs with
      | [] => [[c]]
      | g :: gs => (c :: g) :: gs

/-- `p.lstrip("/")`. -/
def lstripSlashes (s : String) : String := String.mk (s.toList.dropWhile (· = '/'))

/-- `".." in s`. -/
def containsDotDot (s : String) : Bool := containsSub ['.', '.'] s.toList

/-- `os.path.normpath` on the component list of an absolute POSIX path:
drop empty and `"."` components, resolve `".."` against the stack
(at the root `".."` is dropped). -/
def normComponents (cs : List (List Char)) : List (List Char) :=
  (cs.filter (fun c => c ≠ [] && c ≠ ['.'])).foldl
    (fun acc c => if c = ['.', '.'] then acc.dropLast else acc ++ [c]) []

/-- Reassemble components with `/` separators. -/
def joinComponents : List (List Char) → List Char
  | [] => []
  | [c] => c
  | c :: rest => c ++ '/' :: joinComponents rest

/-- `os.path.abspath p` for an absolute input `p` (the process cwd is not
consulted for absolute paths). -/
def abspathAbs (p : String) : String :=
  String.mk ('/' :: joinComponents (normComponents (splitSlash p.toList)))

/-- `os.path.abspath (os.path.join base rel)` for an absolute `base` and a
`rel` with no leading slash. `os.path.join` inserts a single `/` between the
two, and splitting the concatenation on `/` yields the concatenation of the
two splits, so the normalization acts on the combined component list. -/
def abspathJoin (base rel : String) : String :=
  String.mk ('/' :: joinComponents
    (normComponents (splitSlash base.toList ++ splitSlash rel.toList)))

/-- Embeds `PersistenceManager._sanitize_path` (persistence.py:681-718):
reject empty/`None` input; strip leading `/`; reject a literal `..`
substring; normalize the joined path and require it to be strictly inside
`base_directory`. `base_directory` is assumed absolute (callers build it
from the data dir with `os.path.join`). -/
def sanitize_path (path : Option String) (base_directory : String) : Except String String :=
  match path with
  | none => .error "Empty path provided"
  | some p =>
    if p = "" then .error "Empty path provided"
    else if containsDotDot (lstripSlashes p) then
      .error "contains directory traversal sequences"
    else if abspathJoin base_directory (lstripSlashes p) = abspathAbs base_directory then
      .error "attempts to escape base directory"
    else if ¬ (startsWithC (abspathJoin base_directory (lstripSlashes p))
        (abspathAbs base_directory ++ "/")) then
      .error "attempts to escape base directory"
    else .ok (abspathJoin base_directory (lstripSlashes p))

theorem normComponents_append_dot (cs : List (List Char)) :
    normComponents (cs ++ [['.']]) = normComponents cs := by
  unfold normComponents
  rw [List.filter_append]
  have h : List.filter (fun c => c ≠ [] && c ≠ ['.']) [['.']] = [] := by decide
  rw [h, List.append_nil]

theorem abspathJoin_dot (base : String) :
    abspathJoin base "." = abspathAbs base := by
  unfold abspathJoin abspathAbs
  have h : splitSlash (String.toList ".") = [['.']] := by decide
  rw [h, normComponents_append_dot]

/-- C6: for every (absolute, normalized) base directory, `_sanitize_path`
rejects `""`, `None`, `"."`, `"../x"`, `"a/../../b"`, `"/../x"`, and any
input containing a literal `".."` after leading slashes are stripped;
every accepted input yields an absolute path strictly inside the base
(it starts with `base + "/"` and is never the base itself). The concrete
accept examples are checked at base `"/b"`. -/
theorem sanitize_path_some (p : String) (base_directory : String) :
    sanitize_path (some p) base_directory =
      (if p = "" then .error "Empty path provided"
      else if containsDotDot (lstripSlashes p) then
        .error "contains directory traversal sequences"
      else if abspathJoin base_directory (lstripSlashes p) = abspathAbs base_directory then
        .error "attempts to escape base directory"
      else if ¬ (startsWithC (abspathJoin base_directory (lstripSlashes p))
          (abspathAbs base_directory ++ "/")) then
        .error "attempts to escape base directory"
      else .ok (abspathJoin base_directory (lstripSlashes p))) := rfl

theorem c6_sanitize_path_safety (base : String) (hn : abspathAbs base = base) :
    sanitize_path none base = .error "Empty path provided" ∧
    sanitize_path (some "") base = .error "Empty path provided" ∧
    sanitize_path (some ".") base = .error "attempts to escape base directory" ∧
    sanitize_path (some "../x") base = .error "contains directory traversal sequences" ∧
    sanitize_path (some "a/../../b") base = .error "contains directory traversal sequences" ∧
    sanitize_path (some "/../x") base = .error "contains directory traversal sequences" ∧
    (∀ p, containsDotDot (lstripSlashes p) = true →
      isErr (sanitize_path (some p) base) = true) ∧
    (∀ p r, sanitize_path (some p) base = .ok r →
      startsWithC r (base ++ "/") = true ∧ r ≠ base ∧ ∃ rest, r = String.mk ('/' :: rest)) ∧
    sanitize_path (some "a.txt") "/b" = .ok "/b/a.txt" ∧
    sanitize_path (some "/a.txt") "/b" = .ok "/b/a.txt" ∧
    sanitize_path (some "///a/b") "/b" = .ok "/b/a/b" := by
  refine ⟨rfl, rfl, ?_, ?_, ?_, ?_, ?_, ?_, rfl, rfl, rfl⟩
  · rw [sanitize_path_some, if_neg (by decide)]
    have hl : lstripSlashes "." = "." := by decide
    rw [hl, if_neg (by decide), abspathJoin_dot, if_pos rfl]
  · rw [sanitize_path_some, if_neg (by decide)]
    have hl : lstripSlashes "../x" = "../x" := by decide
    rw [hl, if_pos (by decide)]
  · rw [sanitize_path_some, if_neg (by decide)]
    have hl : lstripSlashes "a/../../b" = "a/../../b" := by decide
    rw [hl, if_pos (by decide)]
  · rw [sanitize_path_some, if_neg (by decide)]
    have hl : lstripSlashes "/../x" = "../x" := by decide
    rw [hl, if_pos (by decide)]
  · intro p hp
    rw [sanitize_path_some]
    by_cases h1 : p = ""
    · rw [if_pos h1]; rfl
    · rw [if_neg h1, if_pos hp]; rfl
  · intro p r h
    rw [sanitize_path_some] at h
    by_cases h1 : p = ""
    · rw [if_pos h1] at h; cases h
    · rw [if_neg h1] at h
      by_cases h2 : containsDotDot (lstripSlashes p) = true
      · rw [if_pos h2] at h; cases h
      · rw [if_neg h2] at h
        by_cases h3 : abspathJoin base (lstripSlashes p) = abspathAbs base
        · rw [if_pos h3] at h; cases h
        · rw [if_neg h3] at h
          by_cases h4 : startsWithC (abspathJoin base (lstripSlashes p))
              (abspathAbs base ++ "/") = true
          · rw [if_neg (by simp [h4])] at h
            cases h
            rw [hn] at h3 h4
            exact ⟨h4, h3, _, rfl⟩
          · rw [if_pos (by simp [h4])] at h; cases h

/-- Closed witness for `c6_sanitize_path_safety` at base `"/b"`. -/
theorem c6_sanitize_path_safety_witness :
    abspathAbs "/b" = "/b" ∧
    sanitize_path (some ".") "/b" = .error "attempts to escape base directory" :=
  ⟨by decide, (c6_sanitize_path_safety "/b" (by decide)).2.2.1⟩

/-! ## Persistence-layer file operations (persistence.py)

One folder of one relay is modelled. The working directory base is the
absolute path `get_folder_path_with_prefix` returns (prefix taken empty,
the default, so `get_folder_path` and `get_folder_path_with_prefix`
coincide). `local_file_state[relay][folder]` is `localState`; the folder's
on-disk files are `disk` (absolute path ↦ bytes) and its directories
`dirs`. -/

/-- One value of `local_state.json`:
`{doc_id, hash, type, modified}` (each may be absent/null). -/
structure LocalEntry where
  doc_id : Option String := none
  hash : Option String := none
  rtype : Option String := none
  modified : Nat := 0
deriving DecidableEq, Repr

/-- Working tree and `local_state` slice for one folder. -/
structure FolderState where
  localState : AList LocalEntry := []
  disk : AList String := []
  dirs : List String := []
deriving DecidableEq, Repr

/-- Embeds `PersistenceManager.update_local_file_state` (persistence.py:726-751):
store `{doc_id, hash, type, modified}` under the caller-supplied `path` key. -/
def update_local_file_state (st : FolderState) (doc_id rtype : String)
    (path : String) (file_hash : Option String) (now : Nat) : FolderState :=
  let e : LocalEntry :=
    { doc_id := some doc_id, hash := file_hash, rtype := some rtype, modified := now }
  { st with localState := ainsert st.localState path e }

/-- Embeds `PersistenceManager.write_file_content` (persistence.py:770-797):
sanitize, refuse to overwrite a directory, write the bytes, then record the
local state entry under the original `path` key. -/
def write_file_content (st : FolderState) (base : String) (doc_id rtype : String)
    (path content : String) (file_hash : Option String) (now : Nat) :
    Except String (FolderState × String) :=
  match sanitize_path (some path) base with
  | .error e => .error e
  | .ok full =>
    if st.dirs.contains full then
      .error "Cannot write file: exists as directory"
    else
      .ok (update_local_file_state { st with disk := ainsert st.disk full content }
        doc_id rtype path file_hash now, full)

/-- Embeds `PersistenceManager.write_binary_file_content` (persistence.py:799-830);
the body mirrors `write_file_content` with bytes instead of text (both are the
opaque `String` content type here). -/
def write_binary_file_content (st : FolderState) (base : String) (doc_id rtype : String)
    (path content : String) (file_hash : Option String) (now : Nat) :
    Except String (FolderState × String) :=
  match sanitize_path (some path) base with
  | .error e => .error e
  | .ok full =>
    if st.dirs.contains full then
      .error "Cannot write file: exists as directory"
    else
      .ok (update_local_file_state { st with disk := ainsert st.disk full content }
        doc_id rtype path file_hash now, full)

/-- Embeds `PersistenceManager.move_file` (persistence.py:846-873): sanitize both
paths; if nothing exists at the source, do nothing but still return the pair;
otherwise move the bytes and carry the state entry (default `{}` when absent)
from `from_path` to `to_path`, refreshing `modified`. The existence test is
modelled on files; a directory at the source (never produced by the sync
engine's rename flow, which targets tracked files) is outside the model. -/
def move_file (st : FolderState) (base : String) (from_path to_path : String) (now : Nat) :
    Except String (FolderState × String × String) :=
  match sanitize_path (some from_path) base with
  | .error e => .error e
  | .ok old_full =>
    match sanitize_path (some to_path) base with
    | .error e => .error e
    | .ok new_full =>
      match alookup st.disk old_full with
      | none => .ok (st, old_full, new_full)
      | some content =>
        let old_state := (alookup st.localState from_path).getD {}
        let moved : LocalEntry := { old_state with modified := now }
        .ok ({ st with
                disk := ainsert (aerase st.disk old_full) new_full content,
                localState := ainsert (aerase st.localState from_path) to_path moved },
             old_full, new_full)

/-- Embeds `PersistenceManager.delete_file` (persistence.py:875-891): sanitize;
if something exists there, `os.remove` it (raising on a directory) and pop the
local state entry keyed by the exact `path` string; always return the full path. -/
def delete_file (st : FolderState) (base : String) (path : String) :
    Except String (FolderState × String) :=
  match sanitize_path (some path) base with
  | .error e => .error e
  | .ok full =>
    if st.dirs.contains full then
      .error "IsADirectoryError"
    else
      match alookup st.disk full with
      | none => .ok (st, full)
      | some _ =>
        .ok ({ st with disk := aerase st.disk full,
                       localState := aerase st.localState path }, full)

/-- Embeds `PersistenceManager.create_directory` (persistence.py:832-844).
The body reads the name `relay_id`, which is bound nowhere in the function
(unlike its siblings it never extracts it from the resource), so CPython
raises `NameError` before any filesystem effect. -/
def create_directory (_st : FolderState) (_path : String) :
    Except String (FolderState × String) :=
  .error "NameError: name 'relay_id' is not defined"

/-! ## The state/disk agreement invariant (spec §3 and §8) -/

/-- One entry of the invariant: the tracked file exists at the sanitized
location and, when a hash is stored, the sha256 (`f`) of the on-disk bytes
equals it. -/
def entryAgrees (f : String → String) (base : String) (disk : AList String)
    (p : String) (e : LocalEntry) : Bool :=
  match sanitize_path (some p) base with
  | .error _ => false
  | .ok fp =>
    match alookup disk fp with
    | none => false
    | some c =>
      match truthy e.hash with
      | none => true
      | some h => f c == h

/-- State/disk agreement for every `local_state` entry of the folder. -/
def stateDiskAgreement (f : String → String) (base : String) (st : FolderState) : Bool :=
  st.localState.all (fun pe => entryAgrees f base st.disk pe.1 pe.2)

theorem not_hasKey_forall (l : AList α) (k : String) (h : hasKey l k = false) :
    ∀ y ∈ l, y.1 ≠ k := by
  induction l with
  | nil => intro y hy; cases hy
  | cons kv rest ih =>
    have hcons : hasKey (kv :: rest) k = false := h
    rw [hasKey, alookup_cons] at hcons
    by_cases hk : kv.1 = k
    · rw [if_pos hk] at hcons
      simp at hcons
    · rw [if_neg hk] at hcons
      intro y hy
      rcases List.mem_cons.mp hy with rfl | hmem
      · exact hk
      · exact ih hcons y hmem

theorem mem_ainsert (l : AList α) (k : String) (v : α) (x : String × α)
    (hx : x ∈ ainsert l k v) : x = (k, v) ∨ (x ∈ l ∧ x.1 ≠ k) := by
  unfold ainsert at hx
  by_cases h : hasKey l k
  · rw [if_pos h] at hx
    rcases List.mem_map.mp hx with ⟨y, hy, hxy⟩
    by_cases hk : y.1 = k
    · left; rw [← hxy, if_pos hk]
    · right
      rw [← hxy, if_neg hk]
      exact ⟨hy, hk⟩
  · rw [if_neg h] at hx
    rcases List.mem_append.mp hx with hmem | hone
    · right
      exact ⟨hmem, not_hasKey_forall l k (by simpa using h) x hmem⟩
    · left
      simpa using hone

theorem mem_aerase (l : AList α) (k : String) (x : String × α)
    (hx : x ∈ aerase l k) : x ∈ l ∧ x.1 ≠ k := by
  unfold aerase at hx
  have := List.mem_filter.mp hx
  exact ⟨this.1, by simpa using this.2⟩

theorem alookup_mem (l : AList α) (k : String) (v : α) (h : alookup l k = some v) :
    (k, v) ∈ l := by
  induction l with
  | nil => cases h
  | cons kv rest ih =>
    rw [alookup_cons] at h
    by_cases hk : kv.1 = k
    · rw [if_pos hk] at h
      cases kv with
      | mk a b =>
        simp only at hk h
        injection h with h2
        subst hk
        subst h2
        exact List.mem_cons_self _ _
    · rw [if_neg hk] at h
      exact List.mem_cons_of_mem _ (ih h)

/-- `entryAgrees` only looks at the disk through the entry's own sanitized
location. -/
theorem entryAgrees_congr (f : String → String) (base : String)
    (d d' : AList String) (p : String) (e : LocalEntry)
    (h : ∀ fp, sanitize_path (some p) base = .ok fp → alookup d' fp = alookup d fp) :
    entryAgrees f base d' p e = entryAgrees f base d p e := by
  unfold entryAgrees
  cases hs : sanitize_path (some p) base with
  | error _ => rfl
  | ok fp => simp only [h fp hs]

/-- C10: moving from a source whose sanitized location holds no file performs
no change at all and still returns the sanitized `(old, new)` pair. -/
theorem c10_move_file_missing_source (st : FolderState)
    (base from_path to_path : String) (now : Nat) (old_full new_full : String)
    (hf : sanitize_path (some from_path) base = .ok old_full)
    (ht : sanitize_path (some to_path) base = .ok new_full)
    (hmiss : alookup st.disk old_full = none) :
    move_file st base from_path to_path now = .ok (st, old_full, new_full) := by
  unfold move_file
  rw [hf, ht]
  simp only [hmiss]

/-- Closed witness for `c10_move_file_missing_source`. -/
theorem c10_move_file_missing_source_witness :
    move_file { localState := [("x", {doc_id := some "D"})], disk := [("/b/x", "hi")] }
      "/b" "a" "c" 7 =
      .ok ({ localState := [("x", {doc_id := some "D"})], disk := [("/b/x", "hi")] },
        "/b/a", "/b/c") :=
  c10_move_file_missing_source _ _ _ _ _ _ _ rfl rfl rfl

/-- C2 as stated is false: the reconciliation's DELETE phase calls
`delete_file` with the walked relative path (no leading slash), while the
`local_state` key written by `write_file_content` keeps the filemeta path
(with leading slash). Deleting `"x.md"` removes the file backing the entry
keyed `"/x.md"` but pops the key `"x.md"`, so the stale entry survives with
its file gone and the agreement is broken. No hash is stored, so the
(abstract) hash function plays no role; it is instantiated trivially. -/
theorem c2_counterexample :
    stateDiskAgreement (fun _ => "") "/b"
      { localState := [("/x.md", {doc_id := some "D"})], disk := [("/b/x.md", "hi")] } = true ∧
    delete_file { localState := [("/x.md", {doc_id := some "D"})], disk := [("/b/x.md", "hi")] }
      "/b" "x.md" =
      .ok ({ localState := [("/x.md", {doc_id := some "D"})], disk := [] }, "/b/x.md") ∧
    stateDiskAgreement (fun _ => "") "/b"
      { localState := [("/x.md", {doc_id := some "D"})], disk := [] } = false :=
  ⟨by decide, rfl, by decide⟩

/-- The DELETE phase of a reconciliation: `apply_remote_folder_changes`
executes every emitted DELETE through `delete_file`; `execute_sync_operation`
catches a raised error, leaving the state unchanged for that operation. -/
def run_delete_phase (st : FolderState) (base : String) (paths : List String) : FolderState :=
  paths.foldl (fun s p =>
    match delete_file s base p with
    | .ok res => res.1
    | .error _ => s) st

theorem write_file_content_preserves (f : String → String) (base : String)
    (st : FolderState) (doc_id rtype path content : String)
    (file_hash : Option String) (now : Nat) (st' : FolderState) (full full₂ : String)
    (hInv : stateDiskAgreement f base st = true)
    (hs : sanitize_path (some path) base = .ok full)
    (huniq : ∀ pe ∈ st.localState, sanitize_path (some pe.1) base = .ok full → pe.1 = path)
    (hh : ∀ h, truthy file_hash = some h → f content = h)
    (hres : write_file_content st base doc_id rtype path content file_hash now
      = .ok (st', full₂)) :
    stateDiskAgreement f base st' = true := by
  unfold write_file_content at hres
  simp only [hs] at hres
  by_cases hdir : st.dirs.contains full = true
  · rw [if_pos hdir] at hres; cases hres
  · rw [if_neg hdir] at hres
    injection hres with hres
    injection hres with hres1 hres2
    subst hres1
    unfold stateDiskAgreement update_local_file_state at *
    rw [List.all_eq_true] at hInv ⊢
    intro pe hpe
    simp only at hpe
    rcases mem_ainsert _ _ _ _ hpe with rfl | ⟨hmem, hne⟩
    · unfold entryAgrees
      rw [hs]
      simp only
      rw [alookup_ainsert_self]
      cases ht : truthy file_hash with
      | none => rfl
      | some h => simp [hh h ht]
    · rw [entryAgrees_congr f base st.disk _ pe.1 pe.2]
      · exact hInv pe hmem
      · intro fp hfp
        have : fp ≠ full := by
          intro heq
          exact hne (huniq pe hmem (heq ▸ hfp))
        exact alookup_ainsert_ne _ _ _ _ this

theorem write_binary_eq_write : @write_binary_file_content = @write_file_content := rfl

theorem move_file_preserves (f : String → String) (base : String)
    (st : FolderState) (from_path to_path : String) (now : Nat)
    (st' : FolderState) (old_full new_full : String)
    (hInv : stateDiskAgreement f base st = true)
    (hf : sanitize_path (some from_path) base = .ok old_full)
    (ht : sanitize_path (some to_path) base = .ok new_full)
    (huniqOld : ∀ pe ∈ st.localState,
      sanitize_path (some pe.1) base = .ok old_full → pe.1 = from_path)
    (huniqNew : ∀ pe ∈ st.localState,
      sanitize_path (some pe.1) base = .ok new_full → pe.1 = to_path)
    (hres : move_file st base from_path to_path now = .ok (st', old_full, new_full)) :
    stateDiskAgreement f base st' = true := by
  unfold move_file at hres
  simp only [hf, ht] at hres
  cases hd : alookup st.disk old_full with
  | none =>
    simp only [hd] at hres
    injection hres with hres
    injection hres with hres1 hres2
    subst hres1
    exact hInv
  | some content =>
    simp only [hd] at hres
    injection hres with hres
    injection hres with hres1 hres2
    subst hres1
    unfold stateDiskAgreement at *
    rw [List.all_eq_true] at hInv ⊢
    intro pe hpe
    simp only at hpe
    rcases mem_ainsert _ _ _ _ hpe with rfl | ⟨hmem', hne⟩
    · -- the carried entry now lives at `to_path`, backed by the moved bytes
      unfold entryAgrees
      rw [ht]
      simp only
      rw [alookup_ainsert_self]
      cases he0 : alookup st.localState from_path with
      | none => simp [he0, truthy]
      | some e0 =>
        simp only [he0, Option.getD_some]
        cases hh0 : truthy e0.hash with
        | none => rfl
        | some h =>
          have hag := hInv (from_path, e0) (alookup_mem _ _ _ he0)
          unfold entryAgrees at hag
          simp only [hf, hd, hh0] at hag
          exact hag
    · have hsub := mem_aerase _ _ _ hmem'
      rw [entryAgrees_congr f base st.disk _ pe.1 pe.2]
      · exact hInv pe hsub.1
      · intro fp hfp
        have hnew : fp ≠ new_full := by
          intro heq
          exact hne (huniqNew pe hsub.1 (heq ▸ hfp))
        have hold : fp ≠ old_full := by
          intro heq
          exact hsub.2 (huniqOld pe hsub.1 (heq ▸ hfp))
        rw [alookup_ainsert_ne _ _ _ _ hnew, alookup_aerase_ne _ _ _ hold]

theorem delete_file_preserves (f : String → String) (base : String)
    (st : FolderState) (path : String) (st' : FolderState) (full : String)
    (hInv : stateDiskAgreement f base st = true)
    (hs : sanitize_path (some path) base = .ok full)
    (huniq : ∀ pe ∈ st.localState, sanitize_path (some pe.1) base = .ok full → pe.1 = path)
    (hres : delete_file st base path = .ok (st', full)) :
    stateDiskAgreement f base st' = true := by
  unfold delete_file at hres
  simp only [hs] at hres
  by_cases hdir : st.dirs.contains full = true
  · rw [if_pos hdir] at hres; cases hres
  · rw [if_neg hdir] at hres
    cases hd : alookup st.disk full with
    | none =>
      simp only [hd] at hres
      injection hres with hres
      injection hres with hres1 hres2
      subst hres1
      exact hInv
    | some content =>
      simp only [hd] at hres
      injection hres with hres
      injection hres with hres1 hres2
      subst hres1
      unfold stateDiskAgreement at *
      rw [List.all_eq_true] at hInv ⊢
      intro pe hpe
      simp only at hpe
      have hsub := mem_aerase _ _ _ hpe
      rw [entryAgrees_congr f base st.disk _ pe.1 pe.2]
      · exact hInv pe hsub.1
      · intro fp hfp
        have : fp ≠ full := by
          intro heq
          exact hsub.2 (huniq pe hsub.1 (heq ▸ hfp))
        exact alookup_aerase_ne _ _ _ this

theorem delete_step_localState_subset (st : FolderState) (base p : String)
    (s' : FolderState)
    (h : (match delete_file st base p with
          | .ok res => res.1
          | .error _ => st) = s') :
    ∀ pe ∈ s'.localState, pe ∈ st.localState := by
  cases hdel : delete_file st base p with
  | error e =>
    rw [hdel] at h
    subst h
    exact fun pe hpe => hpe
  | ok res =>
    rw [hdel] at h
    subst h
    unfold delete_file at hdel
    cases hs : sanitize_path (some p) base with
    | error e =>
      simp only [hs] at hdel
      exact Except.noConfusion hdel
    | ok full =>
      simp only [hs] at hdel
      by_cases hdir : st.dirs.contains full = true
      · rw [if_pos hdir] at hdel; cases hdel
      · rw [if_neg hdir] at hdel
        cases hd : alookup st.disk full with
        | none =>
          simp only [hd] at hdel
          injection hdel with hdel
          rw [← hdel]
          exact fun pe hpe => hpe
        | some c =>
          simp only [hd] at hdel
          injection hdel with hdel
          rw [← hdel]
          exact fun pe hpe => (mem_aerase _ _ _ hpe).1

theorem run_delete_phase_preserves (f : String → String) (base : String)
    (paths : List String) :
    ∀ (s st0 : FolderState),
    stateDiskAgreement f base s = true →
    (∀ pe ∈ s.localState, pe ∈ st0.localState) →
    (∀ p ∈ paths, ∀ pe ∈ st0.localState, ∀ c,
      sanitize_path (some pe.1) base = .ok c →
      sanitize_path (some p) base = .ok c → pe.1 = p) →
    stateDiskAgreement f base (run_delete_phase s base paths) = true := by
  induction paths with
  | nil => intro s st0 hInv _ _; exact hInv
  | cons p ps ih =>
    intro s st0 hInv hsub hkeys
    unfold run_delete_phase
    rw [List.foldl_cons]
    have hstep : stateDiskAgreement f base
        (match delete_file s base p with
         | .ok res => res.1
         | .error _ => s) = true := by
      cases hdel : delete_file s base p with
      | error e => exact hInv
      | ok res =>
        cases res with
        | mk s1 full1 =>
          have hs : sanitize_path (some p) base = .ok full1 := by
            unfold delete_file at hdel
            cases hsp : sanitize_path (some p) base with
            | error e =>
              simp only [hsp] at hdel
              exact Except.noConfusion hdel
            | ok full =>
              simp only [hsp] at hdel
              by_cases hdir : s.dirs.contains full = true
              · rw [if_pos hdir] at hdel; cases hdel
              · rw [if_neg hdir] at hdel
                cases hd : alookup s.disk full with
                | none =>
                  simp only [hd] at hdel
                  injection hdel with hdel
                  injection hdel with h1 h2
                  rw [h2]
                | some c =>
                  simp only [hd] at hdel
                  injection hdel with hdel
                  injection hdel with h1 h2
                  rw [h2]
          exact delete_file_preserves f base s p s1 full1 hInv hs
            (fun pe hpe hfp => hkeys p (List.mem_cons_self _ _) pe (hsub pe hpe)
              full1 hfp hs) hdel
    apply ih _ st0 hstep
    · intro pe hpe
      exact hsub pe (delete_step_localState_subset s base p _ rfl pe hpe)
    · intro q hq pe hpe c h1 h2
      exact hkeys q (List.mem_cons_of_mem _ hq) pe hpe c h1 h2


/-- C2 (amended): the state/disk agreement is preserved by `write_text`,
`write_binary`, `move`, `delete` and the DELETE phase, provided (i) any hash
handed to a write is the sha256 of the written bytes, and (ii) the path each
operation is keyed by is the unique `local_state` key sanitizing to the
touched on-disk location — in particular `delete_file` must receive the
exact stored key, which the walk-produced DELETE paths need not be
(see the counterexample). -/
theorem c2_agreement_preservation (f : String → String) (base : String) :
    (∀ st doc_id rtype path content file_hash now st' full full₂,
      stateDiskAgreement f base st = true →
      sanitize_path (some path) base = .ok full →
      (∀ pe ∈ st.localState, sanitize_path (some pe.1) base = .ok full → pe.1 = path) →
      (∀ h, truthy file_hash = some h → f content = h) →
      write_file_content st base doc_id rtype path content file_hash now
        = .ok (st', full₂) →
      stateDiskAgreement f base st' = true) ∧
    (∀ st doc_id rtype path content file_hash now st' full full₂,
      stateDiskAgreement f base st = true →
      sanitize_path (some path) base = .ok full →
      (∀ pe ∈ st.localState, sanitize_path (some pe.1) base = .ok full → pe.1 = path) →
      (∀ h, truthy file_hash = some h → f content = h) →
      write_binary_file_content st base doc_id rtype path content file_hash now
        = .ok (st', full₂) →
      stateDiskAgreement f base st' = true) ∧
    (∀ st from_path to_path now st' old_full new_full,
      stateDiskAgreement f base st = true →
      sanitize_path (some from_path) base = .ok old_full →
      sanitize_path (some to_path) base = .ok new_full →
      (∀ pe ∈ st.localState, sanitize_path (some pe.1) base = .ok old_full → pe.1 = from_path) →
      (∀ pe ∈ st.localState, sanitize_path (some pe.1) base = .ok new_full → pe.1 = to_path) →
      move_file st base from_path to_path now = .ok (st', old_full, new_full) →
      stateDiskAgreement f base st' = true) ∧
    (∀ st path st' full,
      stateDiskAgreement f base st = true →
      sanitize_path (some path) base = .ok full →
      (∀ pe ∈ st.localState, sanitize_path (some pe.1) base = .ok full → pe.1 = path) →
      delete_file st base path = .ok (st', full) →
      stateDiskAgreement f base st' = true) ∧
    (∀ (paths : List String) (st : FolderState),
      stateDiskAgreement f base st = true →
      (∀ p ∈ paths, ∀ pe ∈ st.localState, ∀ c,
        sanitize_path (some pe.1) base = .ok c →
        sanitize_path (some p) base = .ok c → pe.1 = p) →
      stateDiskAgreement f base (run_delete_phase st base paths) = true) := by
  refine ⟨?_, ?_, ?_, ?_, ?_⟩
  · intro st doc_id rtype path content file_hash now st' full full₂ h1 h2 h3 h4 h5
    exact write_file_content_preserves f base st doc_id rtype path content file_hash
      now st' full full₂ h1 h2 h3 h4 h5
  · intro st doc_id rtype path content file_hash now st' full full₂ h1 h2 h3 h4 h5
    rw [write_binary_eq_write] at h5
    exact write_file_content_preserves f base st doc_id rtype path content file_hash
      now st' full full₂ h1 h2 h3 h4 h5
  · intro st from_path to_path now st' old_full new_full h1 h2 h3 h4 h5 h6
    exact move_file_preserves f base st from_path to_path now st' old_full new_full
      h1 h2 h3 h4 h5 h6
  · intro st path st' full h1 h2 h3 h4
    exact delete_file_preserves f base st path st' full h1 h2 h3 h4
  · intro paths st h1 h2
    exact run_delete_phase_preserves f base paths st st h1 (fun pe hpe => hpe) h2

/-- Closed witness for `c2_agreement_preservation`: the delete conjunct applied
to a one-file state deleted by its exact `local_state` key. -/
theorem c2_agreement_preservation_witness :
    stateDiskAgreement (fun _ => "H") "/b"
      ({ localState := [], disk := [] } : FolderState) = true :=
  (c2_agreement_preservation (fun _ => "H") "/b").2.2.2.1
    { localState := [("/x.md", {doc_id := some "D"})], disk := [("/b/x.md", "hi")] }
    "/x.md" { localState := [], disk := [] } "/b/x.md"
    (by decide) rfl (by decide) rfl


/-! ## Sync-engine classification (sync_engine.py)

`apply_remote_state` builds the per-entry path against `get_folder_path`
(no prefix); with the default empty connector prefix this is the same
`base` as the persistence operations use. -/

/-- A filemeta value `{id, type, hash, ...}` (fields may be absent). -/
structure Metadata where
  id : Option String := none
  mtype : Option String := none
  hash : Option String := none
deriving DecidableEq, Repr

inductive OperationType
  | create | update | rename | delete | noop
deriving DecidableEq, Repr

inductive SyncType
  | folder | document | canvas | image | pdf | audio | video | file
deriving DecidableEq, Repr

/-- Embeds `models.SyncOperation` (the fields the claims need). -/
structure SyncOperation where
  optype : OperationType
  path : String
  from_path : Option String := none
  to_path : Option String := none
  completed : Bool := false
  error : Option String := none
  metadata : Option Metadata := none
deriving DecidableEq, Repr

/-- Embeds `models.get_s3rn_resource_category` (models.py:41-62). -/
def get_s3rn_resource_category (resource_type : String) : String :=
  if resource_type = "markdown" ∨ resource_type = "document" then "document"
  else if resource_type = "canvas" then "canvas"
  else if resource_type = "file" ∨ resource_type = "image" ∨ resource_type = "pdf" ∨
      resource_type = "audio" ∨ resource_type = "video" then "file"
  else if resource_type = "folder" then "folder"
  else "file"

/-- Embeds `models.create_document_resource_from_metadata` (models.py:65-93):
raises on a falsy id or type and on type `folder`; otherwise yields the
S3RN category of the resource it constructs. -/
def create_document_resource_from_metadata (metadata : Metadata) :
    Except String String :=
  match truthy metadata.id with
  | none => .error "Missing id field in metadata"
  | some _ =>
    match truthy metadata.mtype with
    | none => .error "Missing type field in metadata"
    | some t =>
      if t = "folder" then .error "Cannot create document resource for folder type"
      else .ok (get_s3rn_resource_category t)

/-- `s.endswith(suffix)`. -/
def endsWithC (s suffix : String) : Bool :=
  hasPrefixC suffix.toList.reverse s.toList.reverse

/-- `s.lower()`. -/
def lowerStr (s : String) : String := String.mk (s.toList.map Char.toLower)

/-- Embeds `SyncEngine.get_file_type` (sync_engine.py:804-830). -/
def get_file_type (path : String) (metadata : Metadata) : SyncType :=
  let metadata_type := metadata.mtype.getD "file"
  if metadata_type = "folder" then .folder
  else if metadata_type = "document" then .document
  else if metadata_type = "canvas" then .canvas
  else if metadata_type = "file" then
    let pl := lowerStr path
    if endsWithC pl ".jpg" || endsWithC pl ".jpeg" || endsWithC pl ".png" ||
        endsWithC pl ".gif" || endsWithC pl ".bmp" || endsWithC pl ".svg" ||
        endsWithC pl ".webp" then .image
    else if endsWithC pl ".pdf" then .pdf
    else if endsWithC pl ".mp3" || endsWithC pl ".wav" || endsWithC pl ".flac" ||
        endsWithC pl ".aac" || endsWithC pl ".ogg" || endsWithC pl ".m4a" then .audio
    else if endsWithC pl ".mp4" || endsWithC pl ".avi" || endsWithC pl ".mov" ||
        endsWithC pl ".wmv" || endsWithC pl ".flv" || endsWithC pl ".webm" ||
        endsWithC pl ".mkv" then .video
    else .file
  else .file

/-- Embeds `SyncEngine.should_update_file` (sync_engine.py:529-545): no remote
hash (or unreadable file) means "assume update needed"; otherwise compare the
sha256 of the local bytes against the remote hash. -/
def should_update_file (f : String → String) (metadata : Metadata)
    (diskContent : Option String) : Bool :=
  match truthy metadata.hash with
  | none => true
  | some remote_hash =>
    match diskContent with
    | none => true
    | some c => f c != remote_hash

/-- Embeds `PersistenceManager.find_local_file_by_doc_id`
(persistence.py:759-768): the first entry (dict order) whose `doc_id`
equals the given id. -/
def find_local_file_by_doc_id (localState : AList LocalEntry) (doc_id : String) :
    Option String :=
  match localState with
  | [] => none
  | (p, e) :: rest =>
    if e.doc_id = some doc_id then some p
    else find_local_file_by_doc_id rest doc_id

/-- `os.path.exists` over the folder model. -/
def pathExists (st : FolderState) (full : String) : Bool :=
  hasKey st.disk full || st.dirs.contains full

/-- Embeds `SyncEngine.apply_remote_state` (sync_engine.py:437-527): the
per-entry classification. A falsy id yields no operation; `folder` entries
become directory CREATEs; otherwise: file exists → UPDATE/NOOP by hash,
else RENAME when the id is tracked at another path, else CREATE. -/
def apply_remote_state (f : String → String) (st : FolderState) (base : String)
    (path : String) (metadata : Metadata) : Except String (Option SyncOperation) :=
  match truthy metadata.id with
  | none => .ok none
  | some doc_id =>
    if metadata.mtype = some "folder" then
      .ok (some { optype := .create, path := path, metadata := some metadata })
    else
      match sanitize_path (some path) base with
      | .error e => .error e
      | .ok full_path =>
        if pathExists st full_path then
          if should_update_file f metadata (alookup st.disk full_path) then
            match create_document_resource_from_metadata metadata with
            | .error e => .error e
            | .ok _ =>
              .ok (some { optype := .update, path := path, metadata := some metadata })
          else
            match create_document_resource_from_metadata metadata with
            | .error e => .error e
            | .ok _ =>
              .ok (some { optype := .noop, path := path, completed := true })
        else
          match find_local_file_by_doc_id st.localState doc_id with
          | some old_path =>
            if old_path ≠ path then
              match create_document_resource_from_metadata metadata with
              | .error e => .error e
              | .ok _ =>
                .ok (some { optype := .rename, path := path,
                            from_path := some old_path, to_path := some path,
                            metadata := some metadata })
            else
              match create_document_resource_from_metadata metadata with
              | .error e => .error e
              | .ok _ =>
                .ok (some { optype := .create, path := path, metadata := some metadata })
          | none =>
            match create_document_resource_from_metadata metadata with
            | .error e => .error e
            | .ok _ =>
              .ok (some { optype := .create, path := path, metadata := some metadata })

/-- Embeds `SyncEngine.sync_by_type` (sync_engine.py:417-435): iterate the
filemeta entries carrying an `"id"` key whose computed file type is in
`sync_types`, collecting one classification result per entry. -/
def sync_by_type (f : String → String) (st : FolderState) (base : String)
    (filemeta : AList Metadata) (sync_types : List SyncType) :
    Except String (List SyncOperation) :=
  match filemeta with
  | [] => .ok []
  | (path, md) :: rest =>
    if md.id.isSome ∧ get_file_type path md ∈ sync_types then
      match apply_remote_state f st base path md with
      | .error e => .error e
      | .ok op? =>
        match sync_by_type f st base rest sync_types with
        | .error e => .error e
        | .ok ops =>
          match op? with
          | some op => .ok (op :: ops)
          | none => .ok ops
    else
      sync_by_type f st base rest sync_types

/-- The Phase-2 type list of `apply_remote_folder_changes`
(sync_engine.py:371-379). -/
def fileSyncTypes : List SyncType :=
  [.document, .canvas, .image, .pdf, .audio, .video, .file]

/-- The metadata `type` strings the claim quantifies over. -/
def fileTypeStrings : List String :=
  ["document", "canvas", "file", "image", "pdf", "audio", "video"]

/-- The Phase-2 classification table exactly as the claim (and spec §4.4.3)
states it. `local_hash` is the hash of the local file, `remoteBytes` the
bytes the remote holds, `hasRenameSource` whether some local_state entry of
the folder carries the same id at a different path. -/
def spec_classify (fileExists : Bool) (local_hash remote_hash : Option String)
    (localBytes remoteBytes : Option String) (hasRenameSource : Bool) :
    OperationType :=
  if fileExists then
    if (local_hash.isSome ∧ local_hash = remote_hash) ∨
       (local_hash = none ∧ remote_hash = none ∧ localBytes = remoteBytes) then
      .noop
    else .update
  else if hasRenameSource then .rename
  else .create

/-- The corrected classification table: NOOP only when a remote hash is
present and the sha256 of the on-disk bytes equals it (an absent remote hash
or unreadable file forces UPDATE); the rename source is the first
local_state entry (dict order) carrying the id, and RENAME requires that
first match to sit at a different path. -/
def amended_classify (f : String → String) (fileExists : Bool)
    (diskContent : Option String) (remote_hash : Option String)
    (firstIdMatch : Option String) (path : String) : OperationType :=
  if fileExists then
    match remote_hash, diskContent with
    | some h, some c => if f c == h then .noop else .update
    | _, _ => .update
  else
    match firstIdMatch with
    | some old_path => if old_path ≠ path then .rename else .create
    | none => .create


theorem truthy_some_imp (o : Option String) (x : String) (h : truthy o = some x) :
    o = some x := by
  cases o with
  | none => cases h
  | some s =>
    simp only [truthy] at h
    by_cases hs : s = ""
    · rw [if_pos hs] at h; cases h
    · rw [if_neg hs] at h
      exact h

theorem amended_update_of_should (f : String → String) (md : Metadata)
    (dc : Option String) (first : Option String) (path : String)
    (h : should_update_file f md dc = true) :
    amended_classify f true dc (truthy md.hash) first path = .update := by
  unfold should_update_file at h
  unfold amended_classify
  rw [if_pos rfl]
  cases hh : truthy md.hash with
  | none => cases dc <;> rfl
  | some rh =>
    rw [hh] at h
    cases hc : dc with
    | none => rfl
    | some c =>
      rw [hc] at h
      simp only
      cases hb : f c == rh
      · rw [if_neg (by simp)]
      · change (!(f c == rh)) = true at h
        rw [hb] at h
        cases h

theorem amended_noop_of_not_should (f : String → String) (md : Metadata)
    (dc : Option String) (first : Option String) (path : String)
    (h : should_update_file f md dc = false) :
    amended_classify f true dc (truthy md.hash) first path = .noop := by
  unfold should_update_file at h
  unfold amended_classify
  rw [if_pos rfl]
  cases hh : truthy md.hash with
  | none => rw [hh] at h; cases h
  | some rh =>
    rw [hh] at h
    cases hc : dc with
    | none => rw [hc] at h; cases h
    | some c =>
      rw [hc] at h
      simp only
      cases hb : f c == rh
      · change (!(f c == rh)) = false at h
        rw [hb] at h
        cases h
      · simp

theorem get_file_type_mem_fileSyncTypes (path : String) (metadata : Metadata)
    (t : String) (ht : metadata.mtype = some t) (htypes : t ∈ fileTypeStrings) :
    get_file_type path metadata ∈ fileSyncTypes := by
  unfold get_file_type
  rw [ht]
  simp only [Option.getD_some, fileSyncTypes]
  simp only [fileTypeStrings, List.mem_cons, List.not_mem_nil, or_false,
    List.mem_singleton] at htypes
  rcases htypes with rfl | rfl | rfl | rfl | rfl | rfl | rfl
  · rw [if_neg (by decide), if_pos rfl]; decide
  · rw [if_neg (by decide), if_neg (by decide), if_pos rfl]; decide
  · rw [if_neg (by decide), if_neg (by decide), if_neg (by decide), if_pos rfl]
    split
    · decide
    · split
      · decide
      · split
        · decide
        · split
          · decide
          · decide
  · rw [if_neg (by decide), if_neg (by decide), if_neg (by decide),
      if_neg (by decide)]; decide
  · rw [if_neg (by decide), if_neg (by decide), if_neg (by decide),
      if_neg (by decide)]; decide
  · rw [if_neg (by decide), if_neg (by decide), if_neg (by decide),
      if_neg (by decide)]; decide
  · rw [if_neg (by decide), if_neg (by decide), if_neg (by decide),
      if_neg (by decide)]; decide


/-- C1 as stated is false: with a file on disk, both hashes absent and the
local bytes equal to the remote bytes, the claim's table says NOOP, but
`should_update_file` treats a missing remote hash as "update needed", so the
code classifies the entry as UPDATE (it never consults remote bytes). -/
theorem c1_counterexample :
    apply_remote_state (fun _ => "H")
      { localState := [], disk := [("/b/a.md", "x")] } "/b" "/a.md"
      { id := some "D", mtype := some "document", hash := none } =
      .ok (some ({ optype := .update, path := "/a.md", metadata := some { id := some "D", mtype := some "document", hash := none } } : SyncOperation)) ∧
    spec_classify true none none (some "x") (some "x") false = .noop :=
  ⟨rfl, rfl⟩

/-- C1 (amended): every `new_filemeta` entry whose type is one of document,
canvas, file, image, pdf, audio, video and which carries a truthy id and a
sanitizable path is classified into exactly one operation: NOOP iff the file
exists and a remote hash is present matching the sha256 of the on-disk
bytes; UPDATE iff the file exists otherwise (missing or differing hash, or
unreadable bytes); RENAME(old, path) iff no file exists and the first
local_state entry holding the id sits at a different old path; CREATE
otherwise. UPDATE beats RENAME because the exists-check comes first. -/
theorem c1_phase2_classification (f : String → String) (st : FolderState)
    (base path : String) (metadata : Metadata) (doc_id t full : String)
    (hid : truthy metadata.id = some doc_id)
    (ht : metadata.mtype = some t)
    (htypes : t ∈ fileTypeStrings)
    (hs : sanitize_path (some path) base = .ok full) :
    ∃ op : SyncOperation,
      apply_remote_state f st base path metadata = .ok (some op) ∧
      sync_by_type f st base [(path, metadata)] fileSyncTypes = .ok [op] ∧
      op.optype = amended_classify f (pathExists st full) (alookup st.disk full)
        (truthy metadata.hash) (find_local_file_by_doc_id st.localState doc_id) path ∧
      op.path = path ∧
      (op.optype = .rename →
        op.from_path = find_local_file_by_doc_id st.localState doc_id ∧
        op.to_path = some path) := by
  have htne : t ≠ "folder" ∧ t ≠ "" := by
    simp only [fileTypeStrings, List.mem_cons, List.not_mem_nil, or_false] at htypes
    rcases htypes with rfl | rfl | rfl | rfl | rfl | rfl | rfl <;>
      exact ⟨by decide, by decide⟩
  have htr : truthy metadata.mtype = some t := by
    rw [ht]
    simp only [truthy]
    rw [if_neg htne.2]
  have hnf : ¬ metadata.mtype = some "folder" := by
    rw [ht]
    intro hcontra
    injection hcontra with hh
    exact htne.1 hh
  have hcreate : create_document_resource_from_metadata metadata
      = .ok (get_s3rn_resource_category t) := by
    unfold create_document_resource_from_metadata
    simp only [hid, htr]
    rw [if_neg htne.1]
  have hidsome : metadata.id = some doc_id := truthy_some_imp _ _ hid
  have hmem := get_file_type_mem_fileSyncTypes path metadata t ht htypes
  have happ :
      apply_remote_state f st base path metadata =
        (if pathExists st full then
          if should_update_file f metadata (alookup st.disk full) then
            Except.ok (some { optype := .update, path := path, metadata := some metadata })
          else
            Except.ok (some { optype := .noop, path := path, completed := true })
        else
          match find_local_file_by_doc_id st.localState doc_id with
          | some old_path =>
            if old_path ≠ path then
              Except.ok (some ({ optype := .rename, path := path, from_path := some old_path, to_path := some path, metadata := some metadata } : SyncOperation))
            else
              Except.ok (some ({ optype := .create, path := path, metadata := some metadata } : SyncOperation))
          | none =>
            Except.ok (some ({ optype := .create, path := path, metadata := some metadata } : SyncOperation))) := by
    unfold apply_remote_state
    simp only [hid, hs]
    rw [if_neg hnf]
    by_cases hex : pathExists st full = true
    · rw [if_pos hex, if_pos hex]
      by_cases hsu : should_update_file f metadata (alookup st.disk full) = true
      · rw [if_pos hsu, if_pos hsu, hcreate]
      · rw [if_neg hsu, if_neg hsu, hcreate]
    · rw [if_neg hex, if_neg hex]
      cases hfind : find_local_file_by_doc_id st.localState doc_id with
      | some old_path =>
        simp only
        by_cases hol : old_path ≠ path
        · rw [if_pos hol, if_pos hol, hcreate]
        · rw [if_neg hol, if_neg hol, hcreate]
      | none => simp only [hcreate]
  by_cases hex : pathExists st full = true
  · by_cases hsu : should_update_file f metadata (alookup st.disk full) = true
    · refine ⟨{ optype := .update, path := path, metadata := some metadata }, ?_, ?_, ?_, rfl, ?_⟩
      · rw [happ, if_pos hex, if_pos hsu]
      · unfold sync_by_type
        rw [if_pos ⟨by rw [hidsome]; rfl, hmem⟩, happ, if_pos hex, if_pos hsu]
        rfl
      · rw [hex]
        exact (amended_update_of_should f metadata _ _ path hsu).symm
      · intro hcontra; cases hcontra
    · refine ⟨{ optype := .noop, path := path, completed := true }, ?_, ?_, ?_, rfl, ?_⟩
      · rw [happ, if_pos hex, if_neg hsu]
      · unfold sync_by_type
        rw [if_pos ⟨by rw [hidsome]; rfl, hmem⟩, happ, if_pos hex, if_neg hsu]
        rfl
      · rw [hex]
        exact (amended_noop_of_not_should f metadata _ _ path
          (by simpa using hsu)).symm
      · intro hcontra; cases hcontra
  · have hexf : pathExists st full = false := by simpa using hex
    cases hfind : find_local_file_by_doc_id st.localState doc_id with
    | some old_path =>
      by_cases hol : old_path ≠ path
      · refine ⟨({ optype := .rename, path := path, from_path := some old_path, to_path := some path, metadata := some metadata } : SyncOperation), ?_, ?_, ?_, rfl, ?_⟩
        · rw [happ, if_neg hex]
          simp only [hfind]
          rw [if_pos hol]
        · unfold sync_by_type
          rw [if_pos ⟨by rw [hidsome]; rfl, hmem⟩, happ, if_neg hex]
          simp only [hfind]
          rw [if_pos hol]
          rfl
        · simp [amended_classify, hexf, hol]
        · intro _
          exact ⟨rfl, rfl⟩
      · refine ⟨({ optype := .create, path := path, metadata := some metadata } : SyncOperation), ?_, ?_, ?_, rfl, ?_⟩
        · rw [happ, if_neg hex]
          simp only [hfind]
          rw [if_neg hol]
        · unfold sync_by_type
          rw [if_pos ⟨by rw [hidsome]; rfl, hmem⟩, happ, if_neg hex]
          simp only [hfind]
          rw [if_neg hol]
          rfl
        · have hol2 : old_path = path := not_ne_iff.mp hol
          simp [amended_classify, hexf, hol2]
        · intro hcontra; cases hcontra
    | none =>
      refine ⟨({ optype := .create, path := path, metadata := some metadata } : SyncOperation), ?_, ?_, ?_, rfl, ?_⟩
      · rw [happ, if_neg hex]
        simp only [hfind]
      · unfold sync_by_type
        rw [if_pos ⟨by rw [hidsome]; rfl, hmem⟩, happ, if_neg hex]
        simp only [hfind]
        rfl
      · simp [amended_classify, hexf]
      · intro hcontra; cases hcontra

/-- Closed witness for `c1_phase2_classification`: a CREATE for a fresh path. -/
theorem c1_phase2_classification_witness :
    ∃ op : SyncOperation,
      apply_remote_state (fun _ => "H") { localState := [], disk := [] } "/b" "/n.md"
        { id := some "D", mtype := some "document", hash := none } = .ok (some op) ∧
      sync_by_type (fun _ => "H") { localState := [], disk := [] } "/b"
        [("/n.md", { id := some "D", mtype := some "document", hash := none })]
        fileSyncTypes = .ok [op] ∧
      op.optype = amended_classify (fun _ => "H")
        (pathExists { localState := [], disk := [] } "/b/n.md")
        (alookup ({ localState := [], disk := [] } : FolderState).disk "/b/n.md")
        (truthy (none : Option String))
        (find_local_file_by_doc_id [] "D") "/n.md" ∧
      op.path = "/n.md" ∧
      (op.optype = .rename →
        op.from_path = find_local_file_by_doc_id [] "D" ∧
        op.to_path = some "/n.md") :=
  c1_phase2_classification (fun _ => "H") { localState := [], disk := [] } "/b" "/n.md"
    { id := some "D", mtype := some "document", hash := none } "D" "document" "/b/n.md"
    (by decide) rfl (by decide) rfl


/-! ## Phase 4 — deletions (sync_engine.py `cleanup_extra_local_files`) -/

/-- A directory component named `.git` strictly above the file. -/
def underDotGitDir (rel : String) : Bool :=
  ((splitSlash rel.toList).dropLast).contains ['.', 'g', 'i', 't']

/-- The relative paths of the files `os.walk` yields under the folder root:
the disk entries below `base`, relative to it. `os.walk` prunes every
directory named `.git` (`dirs.remove(".git")`), so files inside one never
appear. -/
def walk_files (st : FolderState) (base : String) : List String :=
  (st.disk.filterMap (fun kv =>
    if startsWithC kv.1 (base ++ "/") then
      some (String.mk (kv.1.toList.drop (base.toList.length + 1)))
    else none)).filter (fun rel => !(underDotGitDir rel))

/-- Embeds `SyncEngine.cleanup_extra_local_files` (sync_engine.py:752-802):
emit a DELETE for every walked file whose relative path — tried bare and with
a leading `/` — is not a key of `current_filemeta`. The
`relative_path.startswith(".git")` guard is a plain string-prefix test, so it
also skips `.gitignore` and any other top-level name beginning `.git`. -/
def cleanup_extra_local_files (st : FolderState) (base : String)
    (current_filemeta : AList Metadata) : List SyncOperation :=
  (walk_files st base).filterMap (fun rel =>
    if startsWithC rel ".git" then none
    else if hasKey current_filemeta rel ∨ hasKey current_filemeta ("/" ++ rel) then none
    else some { optype := .delete, path := rel })

/-- `execute_sync_operation` on a DELETE (sync_engine.py:547-577 → 742-750):
run `delete_file`; on success mark completed, on a raised error record it and
leave the state untouched. -/
def execute_delete_op (st : FolderState) (base : String) (op : SyncOperation) :
    FolderState × SyncOperation :=
  match delete_file st base op.path with
  | .ok res => (res.1, { op with completed := true })
  | .error e => (st, { op with error := some e })

/-- Phase 4 of `apply_remote_folder_changes` (sync_engine.py:384-402): collect
the DELETEs and execute each pending one in order. -/
def phase4_deletions (st : FolderState) (base : String)
    (current_filemeta : AList Metadata) : FolderState × List SyncOperation :=
  (cleanup_extra_local_files st base current_filemeta).foldl
    (fun acc op =>
      let r := execute_delete_op acc.1 base op
      (r.1, acc.2 ++ [r.2]))
    (st, [])

/-- The deletion set exactly as the claim states it: every walked file
(`.git/` contents excluded by the walk itself) whose relative path, with and
without a leading `/`, is not a filemeta key. -/
def spec_delete_set (st : FolderState) (base : String)
    (current_filemeta : AList Metadata) : List String :=
  (walk_files st base).filter (fun rel =>
    !(hasKey current_filemeta rel) && !(hasKey current_filemeta ("/" ++ rel)))

theorem execute_delete_op_props (st : FolderState) (base : String)
    (op : SyncOperation) :
    (execute_delete_op st base op).2.path = op.path ∧
    (execute_delete_op st base op).2.optype = op.optype ∧
    ((execute_delete_op st base op).2.completed = true ∨
      ((execute_delete_op st base op).2.error).isSome = true) ∧
    (execute_delete_op st base op).1.dirs = st.dirs := by
  unfold execute_delete_op
  cases hdel : delete_file st base op.path with
  | error e => exact ⟨rfl, rfl, Or.inr rfl, rfl⟩
  | ok res =>
    refine ⟨rfl, rfl, Or.inl rfl, ?_⟩
    unfold delete_file at hdel
    cases hs : sanitize_path (some op.path) base with
    | error e =>
      simp only [hs] at hdel
      exact Except.noConfusion hdel
    | ok full =>
      simp only [hs] at hdel
      by_cases hdir : st.dirs.contains full = true
      · rw [if_pos hdir] at hdel; cases hdel
      · rw [if_neg hdir] at hdel
        cases hd : alookup st.disk full with
        | none =>
          simp only [hd] at hdel
          injection hdel with hdel
          rw [← hdel]
        | some c =>
          simp only [hd] at hdel
          injection hdel with hdel
          rw [← hdel]

theorem phase4_fold_props (base : String) (l : List SyncOperation) :
    ∀ (st : FolderState) (acc : List SyncOperation),
    (l.foldl (fun acc op =>
      let r := execute_delete_op acc.1 base op
      (r.1, acc.2 ++ [r.2])) (st, acc)).2.map (fun op => op.path)
        = acc.map (fun op => op.path) ++ l.map (fun op => op.path) ∧
    (l.foldl (fun acc op =>
      let r := execute_delete_op acc.1 base op
      (r.1, acc.2 ++ [r.2])) (st, acc)).2.map (fun op => op.optype)
        = acc.map (fun op => op.optype) ++ l.map (fun op => op.optype) ∧
    (l.foldl (fun acc op =>
      let r := execute_delete_op acc.1 base op
      (r.1, acc.2 ++ [r.2])) (st, acc)).1.dirs = st.dirs ∧
    (∀ op ∈ (l.foldl (fun acc op =>
      let r := execute_delete_op acc.1 base op
      (r.1, acc.2 ++ [r.2])) (st, acc)).2,
      op ∈ acc ∨ op.completed = true ∨ (op.error).isSome = true) := by
  induction l with
  | nil =>
    intro st acc
    exact ⟨by simp, by simp, rfl, fun op hop => Or.inl hop⟩
  | cons o rest ih =>
    intro st acc
    rw [List.foldl_cons]
    have hprops := execute_delete_op_props st base o
    rcases ih (execute_delete_op st base o).1 (acc ++ [(execute_delete_op st base o).2])
      with ⟨h1, h2, h3, h4⟩
    refine ⟨?_, ?_, ?_, ?_⟩
    · rw [h1]
      simp [hprops.1]
    · rw [h2]
      simp [hprops.2.1]
    · rw [h3, hprops.2.2.2]
    · intro op hop
      rcases h4 op hop with hmem | hdone
      · rcases List.mem_append.mp hmem with hmem' | hone
        · exact Or.inl hmem'
        · rcases hprops.2.2.1 with hc | he
          · right; left
            rw [List.mem_singleton.mp hone]
            exact hc
          · right; right
            rw [List.mem_singleton.mp hone]
            exact he
      · exact Or.inr hdone

theorem cleanup_eq_map_filter (st : FolderState) (base : String)
    (fm : AList Metadata) :
    cleanup_extra_local_files st base fm =
      ((walk_files st base).filter (fun rel => !(startsWithC rel ".git") &&
        !(hasKey fm rel) && !(hasKey fm ("/" ++ rel)))).map
        (fun rel => { optype := .delete, path := rel }) := by
  unfold cleanup_extra_local_files
  induction walk_files st base with
  | nil => rfl
  | cons rel rest ih =>
    rw [List.filterMap_cons, List.filter_cons]
    by_cases h1 : startsWithC rel ".git" = true
    · rw [if_pos h1]
      rw [if_neg (by simp [h1])]
      exact ih
    · rw [if_neg h1]
      by_cases h2 : hasKey fm rel ∨ hasKey fm ("/" ++ rel)
      · rw [if_pos h2]
        rw [if_neg (by rcases h2 with h | h <;> simp [h, h1])]
        exact ih
      · rw [if_neg h2]
        rw [if_pos (by push_neg at h2; simp [h1, h2.1, h2.2])]
        rw [List.map_cons]
        rw [ih]

/-- C5 as stated is false: `.gitignore` sits in the working directory, is not
under `.git/`, and is not a filemeta key, so the claim demands a DELETE for
it; the code's `relative_path.startswith(".git")` guard skips it. -/
theorem c5_counterexample :
    cleanup_extra_local_files { disk := [("/b/.gitignore", "x")] } "/b" [] = [] ∧
    spec_delete_set { disk := [("/b/.gitignore", "x")] } "/b" [] = [".gitignore"] :=
  ⟨rfl, rfl⟩

/-- C5 (amended): after Phase 4, a DELETE has been emitted and executed for
exactly those walked files (everything under a `.git` directory excluded, and
any file whose relative path begins with the string `.git`, such as
`.gitignore`, also excluded) whose relative path, tried with and without a
leading `/`, is not a key of new_filemeta; every emitted operation is a
DELETE and is executed (completed, or carrying the raised error); directories
are never removed. -/
theorem c5_phase4_deletions (st : FolderState) (base : String) (fm : AList Metadata)
    (st' : FolderState) (ops : List SyncOperation)
    (h : phase4_deletions st base fm = (st', ops)) :
    ops.map (fun op => op.path) =
      (walk_files st base).filter (fun rel => !(startsWithC rel ".git") &&
        !(hasKey fm rel) && !(hasKey fm ("/" ++ rel))) ∧
    (∀ op ∈ ops, op.optype = .delete) ∧
    (∀ op ∈ ops, op.completed = true ∨ (op.error).isSome = true) ∧
    st'.dirs = st.dirs := by
  unfold phase4_deletions at h
  rcases phase4_fold_props base (cleanup_extra_local_files st base fm) st []
    with ⟨h1, h2, h3, h4⟩
  rw [h] at h1 h2 h3 h4
  refine ⟨?_, ?_, ?_, ?_⟩
  · rw [h1, cleanup_eq_map_filter]
    simp only [List.map_nil, List.nil_append, List.map_map]
    exact List.map_id _
  · intro op hop
    have := List.mem_map_of_mem (fun op => op.optype) hop
    rw [h2, cleanup_eq_map_filter] at this
    simp only [List.map_nil, List.nil_append, List.map_map] at this
    rcases List.mem_map.mp this with ⟨rel, _, hrel⟩
    exact hrel.symm
  · intro op hop
    rcases h4 op hop with hmem | hdone
    · cases hmem
    · exact hdone
  · exact h3

/-- Closed witness for `c5_phase4_deletions`: one tracked file kept, one
extra file deleted. -/
theorem c5_phase4_deletions_witness :
    ([({ optype := OperationType.delete, path := "k.md", completed := true } : SyncOperation)]).map (fun op => op.path) =
      (walk_files { disk := [("/b/a.md", "x"), ("/b/k.md", "y")] } "/b").filter
        (fun rel => !(startsWithC rel ".git") &&
          !(hasKey [("/a.md", ({ id := some "D" } : Metadata))] rel) &&
          !(hasKey [("/a.md", ({ id := some "D" } : Metadata))] ("/" ++ rel))) :=
  (c5_phase4_deletions
    { disk := [("/b/a.md", "x"), ("/b/k.md", "y")] } "/b"
    [("/a.md", ({ id := some "D" } : Metadata))]
    { localState := [], disk := [("/b/a.md", "x")] }
    [({ optype := OperationType.delete, path := "k.md", completed := true } : SyncOperation)]
    rfl).1


/-! ## Phase 1 — folder entries (sync_engine.py `handle_server_create`) -/

/-- Embeds the folder branch of `SyncEngine.handle_server_create`
(sync_engine.py:585-590): delegate to `PersistenceManager.create_directory`. -/
def handle_server_create_folder (st : FolderState) (op : SyncOperation) :
    Except String FolderState :=
  match create_directory st op.path with
  | .error e => .error e
  | .ok res => .ok res.1

/-- Embeds `SyncEngine.execute_sync_operation` (sync_engine.py:547-577) for a
Phase-1 folder CREATE: on success mark the operation completed; on a raised
exception record it in `op.error` (completed stays false) and leave the tree
untouched. -/
def execute_folder_create (st : FolderState) (op : SyncOperation) :
    FolderState × SyncOperation :=
  match handle_server_create_folder st op with
  | .ok st' => (st', { op with completed := true })
  | .error e => (st, { op with error := some e })

/-- C3 fails on the code: `create_directory` reads the unbound name
`relay_id` (persistence.py:838), so every Phase-1 folder operation raises
`NameError`: the operation is marked errored, never completes, and no
directory is created. The repository's own tests
(`test_persistence.py::test_create_directory`,
`test_path_sanitization.py::test_create_directory_sanitization`) expect it
to succeed, so the claim matches the intent and the code is the slip. -/
theorem c3_folder_create_always_errors (st : FolderState) (op : SyncOperation) :
    execute_folder_create st op =
      (st, { op with error := some "NameError: name 'relay_id' is not defined" }) ∧
    (execute_folder_create st op).1.dirs = st.dirs ∧
    (execute_folder_create st op).2.completed = op.completed :=
  ⟨rfl, rfl, rfl⟩

/-! ## Change notifications (sync_engine.py `process_document_change`) -/

/-- One value of the in-memory resource index
(`PersistenceManager.resource_index[relay]`). -/
structure IndexEntry where
  rtype : String
  folder_id : Option String := none
  path : Option String := none
deriving DecidableEq, Repr

/-- Embeds `models.SyncResult` (the fields the claims need). -/
structure SyncResult where
  operations : List SyncOperation := []
  success : Bool
  error : Option String := none
deriving DecidableEq, Repr

/-- Embeds `PersistenceManager._create_s3rn_from_index`
(persistence.py:1027-1061): the S3RN category of the resource built for an
index entry, or `none` when none can be built. -/
def create_s3rn_from_index (e : IndexEntry) : Option String :=
  if e.rtype = "standalone_document" then none
  else
    let cat := get_s3rn_resource_category e.rtype
    if cat = "folder" then some "folder"
    else if cat = "document" ∨ cat = "canvas" ∨ cat = "file" then
      match e.folder_id with
      | some _ => some cat
      | none => none
    else none

/-- Embeds `SyncEngine.handle_document_update` (sync_engine.py:304-336): look
the resource up again; when it resolves to a document/canvas/file with a
truthy indexed path, emit one UPDATE at that path and execute it —
`handle_server_update` writes the provided content with the computed hash
through `write_file_content` (the document/canvas paths; the only callers of
this function in `process_document_change` carry those categories).
Otherwise warn and return no operation. -/
def handle_document_update (index : AList IndexEntry)
    (resource_id content doc_hash : String)
    (st : FolderState) (base : String) (now : Nat) :
    Option SyncOperation × FolderState :=
  match alookup index resource_id with
  | none => (none, st)
  | some e =>
    match create_s3rn_from_index e with
    | none => (none, st)
    | some cat =>
      if cat = "document" ∨ cat = "canvas" ∨ cat = "file" then
        match truthy e.path with
        | none => (none, st)
        | some file_path =>
          match write_file_content st base resource_id cat file_path content
              (some doc_hash) now with
          | .ok res =>
            (some { optype := .update, path := file_path, completed := true,
                    metadata := some { hash := some doc_hash } }, res.1)
          | .error e' =>
            (some { optype := .update, path := file_path, error := some e',
                    metadata := some { hash := some doc_hash } }, st)
      else (none, st)

/-- Embeds `SyncEngine.process_document_change` (sync_engine.py:40-170).
`filemeta_keys` are the stored filemeta folder ids of the relay,
`docHasFilemeta` whether the pulled CRDT doc has a `filemeta_v0` key, and
`fetched` the content the relay client returns for a document/canvas.
For a known folder the code reaches `doc.get("filemeta_v0", type=Map)`
(sync_engine.py:65) where `Map` is imported nowhere in sync_engine.py, so
CPython raises `NameError` and the outer handler returns a failed
`SyncResult` with nothing mutated. For a document/canvas the fetched
content is hashed (`f`), stored, and compared with the previous hash; on a
difference one UPDATE is emitted and executed. -/
def process_document_change (f : String → String)
    (filemeta_keys : List String) (index : AList IndexEntry)
    (hashes : AList String) (resource_id : String)
    (docHasFilemeta : Bool) (fetched : Option String)
    (st : FolderState) (base : String) (now : Nat) :
    SyncResult × AList String × FolderState :=
  if resource_id ∈ filemeta_keys then
    if ¬ docHasFilemeta then
      ({ success := false,
         error := some "Resource expected to be folder but missing filemeta_v0" },
       hashes, st)
    else
      ({ success := false,
         error := some "NameError: name 'Map' is not defined" }, hashes, st)
  else
    match alookup index resource_id with
    | none => ({ operations := [], success := true }, hashes, st)
    | some e =>
      match create_s3rn_from_index e with
      | none => ({ operations := [], success := true }, hashes, st)
      | some cat =>
        if cat = "document" ∨ cat = "canvas" then
          match fetched with
          | none => ({ operations := [], success := true }, hashes, st)
          | some content =>
            let doc_hash := f content
            let old_hash := alookup hashes resource_id
            let hashes2 := ainsert hashes resource_id doc_hash
            if old_hash ≠ some doc_hash then
              match handle_document_update index resource_id content doc_hash
                  st base now with
              | (some op, st2) => ({ operations := [op], success := true }, hashes2, st2)
              | (none, st2) => ({ operations := [], success := true }, hashes2, st2)
            else
              ({ operations := [], success := true }, hashes2, st)
        else
          ({ operations := [], success := true }, hashes, st)

/-- C4 fails on the code: a change notification for a known folder reaches
`doc.get("filemeta_v0", type=Map)` where `Map` is unbound in sync_engine.py
(the import from `pycrdt` exists in relay_client.py but not here), so the
whole folder branch raises `NameError`, the stored filemeta is never
replaced, no reconciliation runs, and the returned result is a failure. -/
theorem c4_folder_notification_fails :
    process_document_change (fun _ => "H") ["F1"] [] [] "F1" true none
      ({} : FolderState) "/b" 0 =
      ({ operations := [], success := false,
         error := some "NameError: name 'Map' is not defined" }, [],
       ({} : FolderState)) :=
  rfl


theorem create_s3rn_from_index_doc_canvas (e : IndexEntry)
    (hcat : get_s3rn_resource_category e.rtype = "document" ∨
            get_s3rn_resource_category e.rtype = "canvas")
    (hfid : e.folder_id.isSome = true) :
    create_s3rn_from_index e = some (get_s3rn_resource_category e.rtype) := by
  have hns : e.rtype ≠ "standalone_document" := by
    intro hh
    rw [hh] at hcat
    revert hcat
    decide
  unfold create_s3rn_from_index
  rw [if_neg hns]
  simp only
  rcases hcat with h | h <;> rw [h]
  · rw [if_neg (by decide), if_pos (by simp)]
    cases hf : e.folder_id with
    | none => rw [hf] at hfid; cases hfid
    | some fid => rfl
  · rw [if_neg (by decide), if_pos (by simp)]
    cases hf : e.folder_id with
    | none => rw [hf] at hfid; cases hfid
    | some fid => rfl

/-- C8: for a notification whose resource resolves in the index to a
document or canvas (owning folder known, indexed path truthy, fetched
content present, path sanitizable to a non-directory location), the content
hash is stored and exactly one UPDATE against the indexed path is emitted
and executed iff that hash differs from the previously stored one; and a
notification whose resource is absent from the index emits nothing and
succeeds. -/
theorem c8_document_change_update (f : String → String)
    (filemeta_keys : List String) (index : AList IndexEntry)
    (hashes : AList String) (resource_id fetched_content : String)
    (e : IndexEntry) (st : FolderState) (base : String) (now : Nat)
    (pth full : String)
    (hnk : resource_id ∉ filemeta_keys)
    (hidx : alookup index resource_id = some e)
    (hcat : get_s3rn_resource_category e.rtype = "document" ∨
            get_s3rn_resource_category e.rtype = "canvas")
    (hfid : e.folder_id.isSome = true)
    (hpath : truthy e.path = some pth)
    (hs : sanitize_path (some pth) base = .ok full)
    (hdir : st.dirs.contains full = false) :
    ((process_document_change f filemeta_keys index hashes resource_id true
        (some fetched_content) st base now).1.success = true ∧
      (process_document_change f filemeta_keys index hashes resource_id true
        (some fetched_content) st base now).2.1 =
        ainsert hashes resource_id (f fetched_content) ∧
      (alookup hashes resource_id ≠ some (f fetched_content) →
        ∃ op : SyncOperation,
          (process_document_change f filemeta_keys index hashes resource_id true
            (some fetched_content) st base now).1.operations = [op] ∧
          op.optype = .update ∧ op.path = pth ∧ op.completed = true) ∧
      (alookup hashes resource_id = some (f fetched_content) →
        (process_document_change f filemeta_keys index hashes resource_id true
          (some fetched_content) st base now).1.operations = [])) ∧
    (∀ rid, rid ∉ filemeta_keys → alookup index rid = none →
      process_document_change f filemeta_keys index hashes rid true
        (some fetched_content) st base now =
        ({ operations := [], success := true }, hashes, st)) := by
  have hcrea := create_s3rn_from_index_doc_canvas e hcat hfid
  have hwrite : write_file_content st base resource_id
      (get_s3rn_resource_category e.rtype) pth fetched_content
      (some (f fetched_content)) now =
      .ok (update_local_file_state
        { st with disk := ainsert st.disk full fetched_content }
        resource_id (get_s3rn_resource_category e.rtype) pth
        (some (f fetched_content)) now, full) := by
    unfold write_file_content
    simp only [hs]
    rw [if_neg (by rw [hdir]; exact Bool.false_ne_true)]
  have hhdu : handle_document_update index resource_id fetched_content
      (f fetched_content) st base now =
      (some { optype := .update, path := pth, completed := true,
              metadata := some { hash := some (f fetched_content) } },
       update_local_file_state
         { st with disk := ainsert st.disk full fetched_content }
         resource_id (get_s3rn_resource_category e.rtype) pth
         (some (f fetched_content)) now) := by
    unfold handle_document_update
    simp only [hidx, hcrea]
    rw [if_pos (by rcases hcat with h | h <;> rw [h] <;> simp)]
    simp only [hpath, hwrite]
  constructor
  · have hproc : process_document_change f filemeta_keys index hashes resource_id
        true (some fetched_content) st base now =
        (if alookup hashes resource_id ≠ some (f fetched_content) then
          (({ operations := [({ optype := .update, path := pth, completed := true, metadata := some { hash := some (f fetched_content) } } : SyncOperation)], success := true } : SyncResult),
           ainsert hashes resource_id (f fetched_content),
           update_local_file_state
             { st with disk := ainsert st.disk full fetched_content }
             resource_id (get_s3rn_resource_category e.rtype) pth
             (some (f fetched_content)) now)
        else
          (({ operations := [], success := true } : SyncResult),
           ainsert hashes resource_id (f fetched_content), st)) := by
      unfold process_document_change
      rw [if_neg hnk]
      simp only [hidx, hcrea]
      rw [if_pos hcat]
      by_cases hh : alookup hashes resource_id ≠ some (f fetched_content)
      · simp only [if_pos hh, hhdu]
      · simp only [if_neg hh]
    by_cases hh : alookup hashes resource_id ≠ some (f fetched_content)
    · rw [hproc, if_pos hh]
      refine ⟨rfl, rfl, ?_, ?_⟩
      · intro _
        exact ⟨_, rfl, rfl, rfl, rfl⟩
      · intro hcontra
        exact absurd hcontra hh
    · rw [hproc, if_neg hh]
      refine ⟨rfl, rfl, ?_, ?_⟩
      · intro hcontra
        exact absurd hcontra hh
      · intro _
        rfl
  · intro rid h1 h2
    unfold process_document_change
    rw [if_neg h1]
    simp only [h2]

/-- Closed witness for `c8_document_change_update`: an indexed document whose
stored hash differs, at base `"/b"`. -/
theorem c8_document_change_update_witness :
    (process_document_change (fun _ => "H") [] 
      [("D", { rtype := "document", folder_id := some "F", path := some "/d.md" })]
      [("D", "old")] "D" true (some "text") ({} : FolderState) "/b" 0).1.success = true :=
  ((c8_document_change_update (fun _ => "H") []
    [("D", { rtype := "document", folder_id := some "F", path := some "/d.md" })]
    [("D", "old")] "D" "text"
    { rtype := "document", folder_id := some "F", path := some "/d.md" }
    ({} : FolderState) "/b" 0 "/d.md" "/b/d.md"
    (by decide) rfl (by decide) (by decide) (by decide) (by decide) (by decide)).1).1


/-! ## Webhook parsing (webhook_handler.py, relay_client.py) -/

/-- `s.split(sep)` for a one-character separator, Python semantics
(`"".split(sep) == [""]`). -/
def splitOnChar (sep : Char) : List Char → List (List Char)
  | [] => [[]]
  | c :: cs =>
    if c = sep then [] :: splitOnChar sep cs
    else
      match splitOnChar sep cs with
      | [] => [[c]]
      | g :: gs => (c :: g) :: gs

/-- `sep.join(groups)`. -/
def joinWith (sep : Char) : List (List Char) → List Char
  | [] => []
  | [g] => g
  | g :: rest => g ++ sep :: joinWith sep rest

theorem splitOnChar_cons (sep c : Char) (cs : List Char) :
    splitOnChar sep (c :: cs) =
      if c = sep then [] :: splitOnChar sep cs
      else
        match splitOnChar sep cs with
        | [] => [[c]]
        | g :: gs => (c :: g) :: gs := rfl

theorem splitOnChar_ne_nil (sep : Char) (cs : List Char) :
    splitOnChar sep cs ≠ [] := by
  cases cs with
  | nil => simp [splitOnChar]
  | cons c cs =>
    unfold splitOnChar
    by_cases h : c = sep
    · rw [if_pos h]; simp
    · rw [if_neg h]
      cases splitOnChar sep cs <;> simp

theorem mem_splitOnChar_not_mem (sep : Char) (cs : List Char) :
    ∀ g ∈ splitOnChar sep cs, sep ∉ g := by
  induction cs with
  | nil =>
    intro g hg
    rcases List.mem_singleton.mp hg with rfl
    simp
  | cons c cs ih =>
    intro g hg
    unfold splitOnChar at hg
    by_cases h : c = sep
    · rw [if_pos h] at hg
      rcases List.mem_cons.mp hg with rfl | hmem
      · simp
      · exact ih g hmem
    · rw [if_neg h] at hg
      cases hsp : splitOnChar sep cs with
      | nil => exact absurd hsp (splitOnChar_ne_nil sep cs)
      | cons g0 gs =>
        rw [hsp] at hg
        rcases List.mem_cons.mp hg with rfl | hmem
        · intro hmem2
          rcases List.mem_cons.mp hmem2 with heq | hmem3
          · exact h heq.symm
          · exact (ih g0 (by rw [hsp]; exact List.mem_cons_self _ _)) hmem3
        · exact ih g (by rw [hsp]; exact List.mem_cons_of_mem g0 hmem)

theorem splitOnChar_of_not_mem (sep : Char) (g : List Char) (h : sep ∉ g) :
    splitOnChar sep g = [g] := by
  induction g with
  | nil => rfl
  | cons c cs ih =>
    unfold splitOnChar
    have hc : ¬ c = sep := fun hh => h (by rw [hh]; exact List.mem_cons_self _ _)
    rw [if_neg hc, ih (fun hm => h (List.mem_cons_of_mem _ hm))]

theorem splitOnChar_append_sep (sep : Char) (g t : List Char) (h : sep ∉ g) :
    splitOnChar sep (g ++ sep :: t) = g :: splitOnChar sep t := by
  induction g with
  | nil => simp [splitOnChar]
  | cons c cs ih =>
    have hc : ¬ c = sep := fun hh => h (by rw [hh]; exact List.mem_cons_self _ _)
    rw [List.cons_append, splitOnChar_cons, if_neg hc,
      ih (fun hm => h (List.mem_cons_of_mem _ hm))]

theorem splitOnChar_joinWith (sep : Char) (l : List (List Char))
    (hne : l ≠ []) (h : ∀ g ∈ l, sep ∉ g) :
    splitOnChar sep (joinWith sep l) = l := by
  induction l with
  | nil => cases hne rfl
  | cons g rest ih =>
    cases rest with
    | nil => exact splitOnChar_of_not_mem sep g (h g (List.mem_cons_self _ _))
    | cons g2 r2 =>
      show splitOnChar sep (g ++ sep :: joinWith sep (g2 :: r2)) = _
      rw [splitOnChar_append_sep sep g _ (h g (List.mem_cons_self _ _)),
        ih (by simp) (fun x hx => h x (List.mem_cons_of_mem _ hx))]

/-- Embeds `RelayClient.extract_relay_id` (relay_client.py:302-310). -/
def extract_relay_id (doc_id : String) : Except String String :=
  if (splitOnChar '-' doc_id.toList).length < 10 then
    .error "Invalid document ID format"
  else .ok (String.mk (joinWith '-' ((splitOnChar '-' doc_id.toList).take 5)))

/-- Embeds `RelayClient.extract_document_id` (relay_client.py:312-320). -/
def extract_document_id (doc_id : String) : Except String String :=
  if (splitOnChar '-' doc_id.toList).length < 10 then
    .error "Invalid document ID format"
  else .ok (String.mk (joinWith '-' ((splitOnChar '-' doc_id.toList).drop 5)))

/-- The number of dash-separated groups of a string. -/
def dashGroups (s : String) : Nat := (splitOnChar '-' s.toList).length

/-- A webhook timestamp value: an ISO 8601 string (carrying an explicit
UTC-offset or not) or a number of unix seconds. Only the timezone content
matters to the claims; the instant itself is abstracted away. -/
inductive TsPayload
  | iso (tzOffsetMinutes : Option Int)
  | num (v : Int)
deriving DecidableEq, Repr

/-- A Python `datetime` as far as the claims see it: aware (some offset)
or naive (none). -/
structure PyDatetime where
  tzOffsetMinutes : Option Int
deriving DecidableEq, Repr

/-- `dateutil.parser.isoparse`, modelled at the library boundary: the result
carries exactly the offset the ISO string specifies — a string without one
yields a naive datetime. -/
def isoparse (tz : Option Int) : PyDatetime := ⟨tz⟩

/-- `datetime.fromtimestamp(float(x), tz=timezone.utc)`: always UTC-aware. -/
def fromtimestamp_utc (_v : Int) : PyDatetime := ⟨some 0⟩

structure WebhookPayload where
  doc_id : Option String := none
  timestamp : Option TsPayload := none

structure ChangeData where
  relay_id : String
  resource_id : String
  timestamp : PyDatetime
deriving DecidableEq, Repr

/-- Embeds `WebhookProcessor.process_webhook` (webhook_handler.py:21-55):
reject a falsy `doc_id` or a `None` timestamp; split the compound id (a
raised `ValueError` is caught, yielding `None`); parse the timestamp —
`isoparse` for strings, `fromtimestamp(..., tz=utc)` for numbers. -/
def process_webhook (p : WebhookPayload) : Option ChangeData :=
  match truthy p.doc_id with
  | none => none
  | some doc_id =>
    match p.timestamp with
    | none => none
    | some ts =>
      match extract_relay_id doc_id, extract_document_id doc_id with
      | .ok relay_id, .ok document_id =>
        some { relay_id := relay_id, resource_id := document_id,
               timestamp := match ts with
                 | .iso tz => isoparse tz
                 | .num v => fromtimestamp_utc v }
      | _, _ => none

/-- C9 as stated is false: a payload with a well-formed compound doc_id and
an ISO timestamp carrying no UTC offset is accepted, but `isoparse` keeps it
naive — the result is not a timezone-aware datetime, contradicting
"treating an unspecified timezone as UTC". -/
theorem c9_counterexample :
    process_webhook { doc_id := some "a-b-c-d-e-f-g-h-i-j",
                      timestamp := some (.iso none) } =
      some { relay_id := "a-b-c-d-e", resource_id := "f-g-h-i-j",
             timestamp := ⟨none⟩ } := rfl


/-- C9 (amended): payloads lacking (or with falsy) `doc_id` or lacking
`timestamp` yield no change item; a payload whose doc_id splits into fewer
than ten dash groups also yields none (the raised `ValueError` is swallowed);
a payload whose doc_id has at least ten dash groups yields relay_id = the
first five groups (a 5-dash-group string) and resource_id = the remaining
groups (five exactly when the doc_id has exactly ten); a numeric timestamp
becomes a UTC-aware datetime, while an ISO string keeps exactly the offset
it spells — naive when it has none. -/
theorem c9_webhook_processing :
    (∀ p : WebhookPayload, truthy p.doc_id = none → process_webhook p = none) ∧
    (∀ p : WebhookPayload, p.timestamp = none → process_webhook p = none) ∧
    (∀ doc_id ts, (splitOnChar '-' doc_id.toList).length < 10 →
      process_webhook { doc_id := some doc_id, timestamp := some ts } = none) ∧
    (∀ doc_id ts cd, 10 ≤ (splitOnChar '-' doc_id.toList).length →
      process_webhook { doc_id := some doc_id, timestamp := some ts } = some cd →
      cd.relay_id = String.mk (joinWith '-' ((splitOnChar '-' doc_id.toList).take 5)) ∧
      cd.resource_id = String.mk (joinWith '-' ((splitOnChar '-' doc_id.toList).drop 5)) ∧
      dashGroups cd.relay_id = 5 ∧
      ((splitOnChar '-' doc_id.toList).length = 10 → dashGroups cd.resource_id = 5) ∧
      (∀ tz, ts = .iso tz → cd.timestamp = ⟨tz⟩) ∧
      (∀ v, ts = .num v → cd.timestamp = ⟨some 0⟩)) := by
  refine ⟨?_, ?_, ?_, ?_⟩
  · intro p h
    unfold process_webhook
    simp only [h]
  · intro p h
    unfold process_webhook
    cases ht : truthy p.doc_id with
    | none => rfl
    | some d => simp only [h]
  · intro doc_id ts hlen
    unfold process_webhook
    cases ht : truthy (some doc_id) with
    | none => rfl
    | some d =>
      have hd : d = doc_id := by
        have := truthy_some_imp _ _ ht
        injection this with hh
        exact hh.symm
      subst hd
      have hext : extract_relay_id d = .error "Invalid document ID format" := by
        unfold extract_relay_id
        rw [if_pos hlen]
      simp only [hext]
  · intro doc_id ts cd hlen hproc
    unfold process_webhook at hproc
    cases ht : truthy (some doc_id) with
    | none => rw [ht] at hproc; cases hproc
    | some d =>
      have hd : d = doc_id := by
        have := truthy_some_imp _ _ ht
        injection this with hh
        exact hh.symm
      subst hd
      rw [ht] at hproc
      have hr : extract_relay_id d
          = .ok (String.mk (joinWith '-' ((splitOnChar '-' d.toList).take 5))) := by
        unfold extract_relay_id
        rw [if_neg (by omega)]
      have hdd : extract_document_id d
          = .ok (String.mk (joinWith '-' ((splitOnChar '-' d.toList).drop 5))) := by
        unfold extract_document_id
        rw [if_neg (by omega)]
      simp only [hr, hdd] at hproc
      injection hproc with hproc
      subst hproc
      have hnosep5 : ∀ g ∈ (splitOnChar '-' d.toList).take 5, ('-') ∉ g :=
        fun g hg => mem_splitOnChar_not_mem '-' d.toList g (List.mem_of_mem_take hg)
      have hnosepd : ∀ g ∈ (splitOnChar '-' d.toList).drop 5, ('-') ∉ g :=
        fun g hg => mem_splitOnChar_not_mem '-' d.toList g (List.mem_of_mem_drop hg)
      have hlen5 : ((splitOnChar '-' d.toList).take 5).length = 5 := by
        rw [List.length_take]
        omega
      refine ⟨rfl, rfl, ?_, ?_, ?_, ?_⟩
      · show (splitOnChar '-' (String.mk
          (joinWith '-' ((splitOnChar '-' d.toList).take 5))).toList).length = 5
        have : (String.mk (joinWith '-' ((splitOnChar '-' d.toList).take 5))).toList
            = joinWith '-' ((splitOnChar '-' d.toList).take 5) := rfl
        rw [this, splitOnChar_joinWith '-' _ (by
          intro hnil
          rw [hnil] at hlen5
          cases hlen5) hnosep5, hlen5]
      · intro h10
        show (splitOnChar '-' (String.mk
          (joinWith '-' ((splitOnChar '-' d.toList).drop 5))).toList).length = 5
        have hld : ((splitOnChar '-' d.toList).drop 5).length = 5 := by
          rw [List.length_drop]
          omega
        have : (String.mk (joinWith '-' ((splitOnChar '-' d.toList).drop 5))).toList
            = joinWith '-' ((splitOnChar '-' d.toList).drop 5) := rfl
        rw [this, splitOnChar_joinWith '-' _ (by
          intro hnil
          rw [hnil] at hld
          cases hld) hnosepd, hld]
      · intro tz htz
        subst htz
        rfl
      · intro v hv
        subst hv
        rfl

/-- Closed witness for `c9_webhook_processing`: a ten-group doc_id with a
unix-seconds timestamp. -/
theorem c9_webhook_processing_witness :
    ({ relay_id := "a-b-c-d-e", resource_id := "f-g-h-i-j",
       timestamp := ⟨some 0⟩ } : ChangeData).relay_id =
      String.mk (joinWith '-'
        ((splitOnChar '-' ("a-b-c-d-e-f-g-h-i-j").toList).take 5)) :=
  (c9_webhook_processing.2.2.2 "a-b-c-d-e-f-g-h-i-j" (.num 5)
    { relay_id := "a-b-c-d-e", resource_id := "f-g-h-i-j", timestamp := ⟨some 0⟩ }
    (by decide) rfl).1


/-! ## The committer (persistence.py `commit_changes`,
operations_queue.py `_maybe_commit_changes`) -/

/-- A broken-down local time, as `time.localtime` yields for `strftime`. -/
structure Tm where
  year : Nat
  mon : Nat
  day : Nat
  hour : Nat
  minute : Nat
  sec : Nat
deriving DecidableEq, Repr

def digitChar (n : Nat) : Char := Char.ofNat (48 + n)

/-- Two-digit zero-padded field (`%m`, `%d`, `%H`, `%M`, `%S`). -/
def twoDigits (n : Nat) : List Char := [digitChar (n / 10 % 10), digitChar (n % 10)]

/-- Four-digit zero-padded field (`%Y`, for years up to 9999 — every value
`time.localtime` produces). -/
def fourDigits (n : Nat) : List Char :=
  [digitChar (n / 1000 % 10), digitChar (n / 100 % 10),
   digitChar (n / 10 % 10), digitChar (n % 10)]

/-- `time.strftime("%Y-%m-%d %H:%M:%S", t)`. -/
def strftime (t : Tm) : String :=
  String.mk (fourDigits t.year ++ '-' :: twoDigits t.mon ++ '-' :: twoDigits t.day
    ++ ' ' :: twoDigits t.hour ++ ':' :: twoDigits t.minute ++ ':' :: twoDigits t.sec)

/-- `^\d{4}-\d{2}-\d{2} \d{2}:\d{2}:\d{2}$`. -/
def isTimestampShape (s : String) : Bool :=
  match s.toList with
  | [a, b, c, d, s1, e, f, s2, g, h, s3, i, j, s4, k, l, s5, m, n] =>
    a.isDigit && b.isDigit && c.isDigit && d.isDigit && (s1 == '-') &&
    e.isDigit && f.isDigit && (s2 == '-') && g.isDigit && h.isDigit &&
    (s3 == ' ') && i.isDigit && j.isDigit && (s4 == ':') && k.isDigit &&
    l.isDigit && (s5 == ':') && m.isDigit && n.isDigit
  | _ => false

theorem digitChar_mod_isDigit (n : Nat) : (digitChar (n % 10)).isDigit = true := by
  have h : n % 10 < 10 := Nat.mod_lt _ (by norm_num)
  interval_cases hq : (n % 10) <;> decide

theorem strftime_shape (t : Tm) : isTimestampShape (strftime t) = true := by
  show isTimestampShape (strftime t) = true
  unfold isTimestampShape strftime fourDigits twoDigits
  simp only [List.cons_append, List.nil_append, String.toList]
  simp [digitChar_mod_isDigit]

/-- A Git repository as `commit_changes` observes it. `commits` is the list
of commit messages, oldest first; `pushes` counts pushes performed. -/
structure GitRepo where
  is_dirty : Bool := false
  untracked_files : List String := []
  commits : List String := []
  pushes : Nat := 0
  hasRemote : Bool := false
deriving DecidableEq, Repr

/-- Embeds `PersistenceManager.commit_changes` (persistence.py:593-624): for
every repo that is dirty or has untracked files, stage everything (leaving
it clean), commit `"Auto-sync: " + strftime(now)`, and push
(`_push_to_remote` returns without pushing when no remote is configured).
Returns whether any commit was made. -/
def commit_changes (now : Tm) (repos : List GitRepo) : List GitRepo × Bool :=
  (repos.map (fun r =>
    if r.is_dirty || !r.untracked_files.isEmpty then
      { r with is_dirty := false, untracked_files := [],
               commits := r.commits ++ ["Auto-sync: " ++ strftime now],
               pushes := r.pushes + (if r.hasRemote then 1 else 0) }
    else r),
   repos.any (fun r => r.is_dirty || !r.untracked_files.isEmpty))

structure CommitState where
  has_changes : Bool
deriving DecidableEq, Repr

/-- Embeds `OperationsQueue._maybe_commit_changes`
(operations_queue.py:112-127): skip entirely while the has-changes flag is
false; otherwise run `commit_changes` and clear the flag only if something
was committed. -/
def maybe_commit_changes (now : Tm) (repos : List GitRepo) (s : CommitState) :
    List GitRepo × CommitState :=
  if ¬ s.has_changes then (repos, s)
  else
    ((commit_changes now repos).1,
     { has_changes := if (commit_changes now repos).2 then false else s.has_changes })

/-- Total number of commits across repos. -/
def totalCommits (repos : List GitRepo) : Nat :=
  (repos.map (fun r => r.commits.length)).sum

theorem commit_changes_all_clean (now : Tm) (repos : List GitRepo) :
    ∀ r ∈ (commit_changes now repos).1,
      r.is_dirty = false ∧ r.untracked_files = [] := by
  intro r hr
  unfold commit_changes at hr
  simp only at hr
  rcases List.mem_map.mp hr with ⟨r0, _, hr0⟩
  by_cases h : r0.is_dirty || !r0.untracked_files.isEmpty
  · rw [if_pos h] at hr0
    rw [← hr0]
    exact ⟨rfl, rfl⟩
  · rw [if_neg h] at hr0
    rw [← hr0]
    simp only [Bool.or_eq_true, Bool.not_eq_true', List.isEmpty_iff] at h
    push_neg at h
    refine ⟨by simpa using h.1, ?_⟩
    have := h.2
    simpa [List.isEmpty_iff] using this

theorem commit_changes_of_clean (now : Tm) (repos : List GitRepo)
    (h : ∀ r ∈ repos, r.is_dirty = false ∧ r.untracked_files = []) :
    commit_changes now repos = (repos, false) := by
  unfold commit_changes
  have hcond : ∀ r ∈ repos, (r.is_dirty || !r.untracked_files.isEmpty) = false := by
    intro r hr
    rcases h r hr with ⟨h1, h2⟩
    simp [h1, h2]
  simp only [Prod.mk.injEq]
  constructor
  · rw [List.map_congr_left (fun r hr => by rw [if_neg (by rw [hcond r hr]; simp)])]
    exact List.map_id _
  · rw [List.any_eq_false]
    intro r hr
    rw [hcond r hr]
    simp

/-- C7: a tick with the has-changes flag false performs nothing; a tick with
it true creates, for exactly the repos that are dirty or hold untracked
files, one commit `"Auto-sync: " + strftime(now)` (staging everything and
pushing once when a remote is configured) and leaves clean repos untouched;
the timestamp has the `YYYY-MM-DD HH:MM:SS` shape; and a second tick right
after any tick produces zero new commits. -/
theorem c7_committer_tick (now : Tm) :
    (∀ repos s, s.has_changes = false →
      maybe_commit_changes now repos s = (repos, s)) ∧
    (∀ repos (s : CommitState), s.has_changes = true → ∀ r ∈ repos,
      ((r.is_dirty = true ∨ r.untracked_files ≠ []) →
        ({ r with is_dirty := false, untracked_files := [], commits := r.commits ++ ["Auto-sync: " ++ strftime now], pushes := r.pushes + (if r.hasRemote then 1 else 0) } : GitRepo) ∈ (maybe_commit_changes now repos s).1) ∧
      ((r.is_dirty = false ∧ r.untracked_files = []) →
        r ∈ (maybe_commit_changes now repos s).1)) ∧
    isTimestampShape (strftime now) = true ∧
    (∀ (now2 : Tm) repos s,
      totalCommits (maybe_commit_changes now2
        (maybe_commit_changes now repos s).1
        (maybe_commit_changes now repos s).2).1 =
      totalCommits (maybe_commit_changes now repos s).1) := by
  refine ⟨?_, ?_, strftime_shape now, ?_⟩
  · intro repos s hs
    unfold maybe_commit_changes
    rw [if_pos (by rw [hs]; exact Bool.false_ne_true)]
  · intro repos s hs r hr
    have hres : (maybe_commit_changes now repos s).1 = (commit_changes now repos).1 := by
      unfold maybe_commit_changes
      rw [if_neg (by rw [hs]; simp)]
    constructor
    · intro hch
      rw [hres]
      unfold commit_changes
      simp only
      have hcond : (r.is_dirty || !r.untracked_files.isEmpty) = true := by
        rcases hch with h1 | h2
        · simp [h1]
        · simp [List.isEmpty_iff, h2]
      exact List.mem_map.mpr ⟨r, hr, by simp only [if_pos hcond]⟩
    · intro hcl
      rw [hres]
      unfold commit_changes
      simp only
      have hcond : (r.is_dirty || !r.untracked_files.isEmpty) = false := by
        simp [hcl.1, hcl.2]
      exact List.mem_map.mpr ⟨r, hr, by simp only [if_neg (show ¬ ((r.is_dirty || !r.untracked_files.isEmpty) = true) by rw [hcond]; simp)]⟩
  · intro now2 repos s
    by_cases hs : s.has_changes = true
    · have h1 : maybe_commit_changes now repos s =
          ((commit_changes now repos).1,
           { has_changes := if (commit_changes now repos).2 then false
             else s.has_changes }) := by
        unfold maybe_commit_changes
        rw [if_neg (by rw [hs]; simp)]
      rw [h1]
      by_cases hc : (commit_changes now repos).2 = true
      · rw [hc]
        unfold maybe_commit_changes
        rw [if_pos (by simp)]
      · rw [Bool.not_eq_true] at hc
        rw [hc, hs]
        unfold maybe_commit_changes
        rw [if_neg (by simp)]
        simp only
        rw [commit_changes_of_clean now2 (commit_changes now repos).1
          (commit_changes_all_clean now repos)]
    · rw [Bool.not_eq_true] at hs
      have h1 : maybe_commit_changes now repos s = (repos, s) := by
        unfold maybe_commit_changes
        rw [if_pos (by rw [hs]; exact Bool.false_ne_true)]
      have h2 : maybe_commit_changes now2 repos s = (repos, s) := by
        unfold maybe_commit_changes
        rw [if_pos (by rw [hs]; exact Bool.false_ne_true)]
      rw [h1]
      show totalCommits (maybe_commit_changes now2 repos s).1 = totalCommits repos
      rw [h2]

/-- Closed witness for `c7_committer_tick`: one dirty repo gets its
Auto-sync commit on a flagged tick. -/
theorem c7_committer_tick_witness :
    ({ is_dirty := false, untracked_files := [], commits := ["Auto-sync: " ++ strftime ⟨2026, 10, 12, 3, 4, 5⟩], pushes := 1, hasRemote := true } : GitRepo) ∈
      (maybe_commit_changes ⟨2026, 10, 12, 3, 4, 5⟩
        [{ is_dirty := true, hasRemote := true }] ⟨true⟩).1 :=
  (((c7_committer_tick ⟨2026, 10, 12, 3, 4, 5⟩).2.1
    [{ is_dirty := true, hasRemote := true }] ⟨true⟩ rfl
    { is_dirty := true, hasRemote := true } (List.mem_singleton.mpr rfl)).1
    (Or.inl rfl))


end RelayGitSync
